import Mathlib

/-!
# SocialHubCore: the real-time fan-out hub (`internal/websocket/hub.go`)

A shallow embedding of the hub's command loop `Hub.Run`.  The hub owns a map
from user identifiers to sets of client handles; every client owns a bounded
outbound channel `send`.  The loop consumes one command at a time (register,
unregister, broadcast), so the embedding is a deterministic step function on
an explicit state: the map `h.clients` together with the heap of `send`
channels.

Go run-time failures (closing a closed channel, sending on a closed channel)
are modelled explicitly: a step returns an `Outcome`, either `ok` with the next
state or `panic` with the state at the moment of the failure.
-/

namespace Websocket

/-- A `uuid.UUID` value; only equality of identifiers is ever used. -/
abbrev UUID := Nat

/-- A `[]byte` payload. -/
abbrev Bytes := List Nat

/-- Modelled from the spec: the `Client` type is declared in a file that is not
among the sources.  `hub.go` uses a `*Client` as a map key (pointer identity),
reads its field `UserID` and uses its channel `send`.  A value of this type
stands for the pointer: `id` tells apart the connections of one user, `UserID`
is the immutable field.  The mutable channel lives in the state (`Hub.send`). -/
structure Client where
  id : Nat
  UserID : UUID
deriving DecidableEq, Repr

/-- The type `Message` of `hub.go`. -/
structure Message where
  UserID : UUID
  Payload : Bytes
deriving DecidableEq, Repr

/-- A Go buffered channel of `[]byte`: the buffered items (head is the oldest),
the capacity and the closed flag.  `recvd` is a ghost log of the items that were
already received from the channel, oldest first. -/
structure Chan where
  buf : List Bytes
  cap : Nat
  closed : Bool
  recvd : List Bytes
deriving DecidableEq, Repr

/-- The buffer has no free slot: a non-blocking send would not proceed. -/
def Chan.full (ch : Chan) : Bool := decide (ch.cap ≤ ch.buf.length)

/-- Go `close(ch)`: closing a closed channel is a run-time panic (`none`). -/
def Chan.close (ch : Chan) : Option Chan :=
  if ch.closed then none else some { ch with closed := true }

/-- Result of the `select { case ch <- v: ... default: ... }` statement. -/
inductive TrySend where
  | sent (ch : Chan)
  | wouldBlock
  | panic
deriving DecidableEq, Repr

/-- Go non-blocking send on a buffered channel (`cap ≥ 1`): on a closed channel
the send case panics; with a free buffer slot the value is appended at the tail;
otherwise `default` is taken.  (On a buffered channel a hand-off to a parked
receiver happens on an empty buffer and is the same as an append followed by
`recv`.)  An unbuffered channel (`cap = 0`) is outside the model: there the send
proceeds exactly when the writer is parked in a receive, which the state does
not record; the statements about delivery and eviction assume `cap ≥ 1`. -/
def Chan.trySend (ch : Chan) (v : Bytes) : TrySend :=
  if ch.closed then .panic
  else if ch.buf.length < ch.cap then .sent { ch with buf := ch.buf ++ [v] }
  else .wouldBlock

/-- Modelled from the spec: the writer task of a connection (not among the
sources) drains the outbound queue in FIFO order.  One receive moves the oldest
buffered item to the log of received items; on an empty buffer nothing moves. -/
def Chan.recv (ch : Chan) : Chan :=
  match ch.buf with
  | [] => ch
  | v :: rest => { ch with buf := rest, recvd := ch.recvd ++ [v] }

/-- Everything that was ever enqueued and is still known: received items
followed by the items still buffered. -/
def Chan.log (ch : Chan) : List Bytes := ch.recvd ++ ch.buf

/-- The state the loop of `Hub.Run` works on: the field `clients` of `Hub`
(`map[uuid.UUID]map[*Client]bool`; an inner map is the list of its keys) and the
`send` channel of every client. -/
structure Hub where
  clients : UUID → Option (List Client)
  send : Client → Chan

/-- The outcome of running code that may panic. -/
inductive Outcome (σ : Type) where
  | ok (s : σ)
  | panic (s : σ)

/-- The state carried by an outcome. -/
def Outcome.state {σ : Type} : Outcome σ → σ
  | .ok s => s
  | .panic s => s

/-- Whether the code ran to completion. -/
def Outcome.isOk {σ : Type} : Outcome σ → Bool
  | .ok _ => true
  | .panic _ => false

/-- The commands the loop selects on, plus the receive of a writer task. -/
inductive Cmd where
  | register (client : Client)
  | unregister (client : Client)
  | broadcast (message : Message)
  | recv (client : Client)
deriving DecidableEq, Repr

/-- Go `delete(clients, client)` on an inner map. -/
def deleteClient (clients : List Client) (client : Client) : List Client :=
  clients.filter (fun c => decide (c ≠ client))

/-- Go `clients[client] = true` on an inner map. -/
def insertClient (clients : List Client) (client : Client) : List Client :=
  if client ∈ clients then clients else clients ++ [client]

/-- The loop `for client := range clients { select { ... } }` of the broadcast
case, visiting the clients of the first list in order.  The second list is the
inner map being mutated, the function is the heap of `send` channels. -/
def broadcastLoop (payload : Bytes) :
    List Client → List Client → (Client → Chan) → Outcome (List Client × (Client → Chan))
  | [], clients, send => .ok (clients, send)
  | client :: rest, clients, send =>
    match (send client).trySend payload with
    | .panic => .panic (clients, send)
    | .sent ch => broadcastLoop payload rest clients (Function.update send client ch)
    | .wouldBlock =>
      match (send client).close with
      | none => .panic (clients, send)
      | some ch =>
        broadcastLoop payload rest (deleteClient clients client) (Function.update send client ch)

/-- The register case of `Hub.Run`. -/
def register (h : Hub) (client : Client) : Outcome Hub :=
  let clients := match h.clients client.UserID with
    | none => []
    | some clients => clients
  .ok { h with clients := Function.update h.clients client.UserID (some (insertClient clients client)) }

/-- The unregister case of `Hub.Run`. -/
def unregister (h : Hub) (client : Client) : Outcome Hub :=
  match h.clients client.UserID with
  | none => .ok h
  | some clients =>
    if client ∈ clients then
      let clients1 := deleteClient clients client
      let h1 : Hub := { h with clients := Function.update h.clients client.UserID (some clients1) }
      match (h.send client).close with
      | none => .panic h1
      | some ch =>
        let h2 : Hub := { h1 with send := Function.update h.send client ch }
        if clients1.length = 0 then
          .ok { h2 with clients := Function.update h.clients client.UserID none }
        else .ok h2
    else .ok h

/-- The broadcast case of `Hub.Run`. -/
def broadcast (h : Hub) (message : Message) : Outcome Hub :=
  match h.clients message.UserID with
  | none => .ok h
  | some clients =>
    match broadcastLoop message.Payload clients clients h.send with
    | .ok (clients1, send1) =>
      .ok { clients := Function.update h.clients message.UserID (some clients1), send := send1 }
    | .panic (clients1, send1) =>
      .panic { clients := Function.update h.clients message.UserID (some clients1), send := send1 }

/-- One iteration of the `for { select { ... } }` loop of `Hub.Run`, extended
with the receive of a writer task. -/
def step (h : Hub) : Cmd → Outcome Hub
  | .register client => register h client
  | .unregister client => unregister h client
  | .broadcast message => broadcast h message
  | .recv client => .ok { h with send := Function.update h.send client (h.send client).recv }

/-- Processing a sequence of commands; a panic ends the loop. -/
def run (h : Hub) : List Cmd → Outcome Hub
  | [] => .ok h
  | cmd :: rest =>
    match step h cmd with
    | .ok h1 => run h1 rest
    | .panic h1 => .panic h1

/-- The state built by `NewHub`: no user has an entry.  The channels of the
clients that will connect are given. -/
def NewHub (send : Client → Chan) : Hub :=
  { clients := fun _ => none, send := send }

/-- The connections stored under a user; empty when the user has no entry. -/
def Hub.members (h : Hub) (userID : UUID) : List Client :=
  match h.clients userID with
  | none => []
  | some clients => clients

/-- An inner map has each key once. -/
def Hub.WF (h : Hub) : Prop :=
  ∀ userID clients, h.clients userID = some clients → clients.Nodup

/-- A channel that was just made with `make(chan []byte, cap)`. -/
def Chan.make (cap : Nat) : Chan :=
  { buf := [], cap := cap, closed := false, recvd := [] }

/-- What a channel looks like after the broadcast loop visited its client once:
a full channel was closed, any other got the payload at the tail. -/
def Chan.deliver (ch : Chan) (payload : Bytes) : Chan :=
  if ch.full then { ch with closed := true } else { ch with buf := ch.buf ++ [payload] }

/-- The clients that survive a visit of `visited`: those not visited or not full. -/
def survivors (visited clients : List Client) (send : Client → Chan) : List Client :=
  clients.filter (fun c => !(decide (c ∈ visited) && (send c).full))

/-- The heap after a visit of `visited`. -/
def delivered (payload : Bytes) (visited : List Client) (send : Client → Chan) : Client → Chan :=
  fun c => if c ∈ visited then (send c).deliver payload else send c

/-- The payloads of the broadcast commands addressed to a user, in order. -/
def payloadsFor (userID : UUID) : List Cmd → List Bytes
  | [] => []
  | .broadcast message :: rest =>
    if message.UserID = userID then message.Payload :: payloadsFor userID rest
    else payloadsFor userID rest
  | _ :: rest => payloadsFor userID rest

/-- Whether a command is a broadcast (Deliver) command. -/
def Cmd.isBroadcast : Cmd → Bool
  | .broadcast _ => true
  | _ => false

/-- Every connection stored under a user carries that user's identifier. -/
def Hub.Keyed (h : Hub) : Prop :=
  ∀ userID clients, h.clients userID = some clients → ∀ c ∈ clients, c.UserID = userID

/-- No user maps to an empty connection set. -/
def Hub.NoEmpty (h : Hub) : Prop :=
  ∀ userID, h.clients userID ≠ some []

/-- A hub in which the client `⟨0, 7⟩` was registered, unregistered and
registered again: it is a member of the set of user 7 with a closed channel. -/
def reusedHub : Hub :=
  (run (NewHub fun _ => Chan.make 1)
    [.register ⟨0, 7⟩, .unregister ⟨0, 7⟩, .register ⟨0, 7⟩]).state

/-- A hub in which user 7 has two connections with queues of capacity 1: the
queue of `⟨0, 7⟩` holds one item (it is full), the queue of `⟨1, 7⟩` is empty. -/
def twoClientHub : Hub :=
  (run (NewHub fun _ => Chan.make 1)
    [.register ⟨0, 7⟩, .broadcast ⟨7, [1]⟩, .register ⟨1, 7⟩, .recv ⟨1, 7⟩,
     .register ⟨5, 8⟩]).state

/-- A hub in which user 3 has two connections with empty queues of capacity 2,
and user 4 has one. -/
def idleHub : Hub :=
  (run (NewHub fun _ => Chan.make 2)
    [.register ⟨0, 3⟩, .register ⟨1, 3⟩, .register ⟨2, 4⟩]).state

/-- A hub in which user 3 has two connections with empty queues of capacity 2;
the second one was unregistered and registered again, so its channel is closed. -/
def staleHub : Hub :=
  (run (NewHub fun _ => Chan.make 2)
    [.register ⟨0, 3⟩, .register ⟨1, 3⟩, .unregister ⟨1, 3⟩, .register ⟨1, 3⟩]).state

/-- A hub right after the registration of `⟨0, 3⟩`, whose queue of capacity 2 is
empty; user 8 has a connection as well. -/
def fifoHub : Hub :=
  (run (NewHub fun _ => Chan.make 2) [.register ⟨5, 8⟩, .register ⟨0, 3⟩]).state

/-- Commands processed after that registration: two broadcasts to user 3, one to
user 8, a receive of the writer of `⟨0, 3⟩`, and another connection of user 3
coming and going. -/
def fifoPost : List Cmd :=
  [.broadcast ⟨3, [1]⟩, .broadcast ⟨8, [7]⟩, .recv ⟨0, 3⟩, .broadcast ⟨3, [2]⟩,
   .register ⟨1, 3⟩, .unregister ⟨1, 3⟩]

/-- The clients on which the broadcast loop runs `close(client.send)`, in the
order of the visit: those whose non-blocking send took the `default` branch. -/
def broadcastCloses (payload : Bytes) : List Client → (Client → Chan) → List Client
  | [], _ => []
  | client :: rest, send =>
    match (send client).trySend payload with
    | .panic => []
    | .sent ch => broadcastCloses payload rest (Function.update send client ch)
    | .wouldBlock =>
      match (send client).close with
      | none => [client]
      | some ch => client :: broadcastCloses payload rest (Function.update send client ch)

/-- The clients on which one iteration of `Hub.Run` runs `close(client.send)`:
the unregistered member, or the connections a broadcast evicts. -/
def stepCloses (h : Hub) : Cmd → List Client
  | .register _ => []
  | .unregister client =>
    match h.clients client.UserID with
    | none => []
    | some clients => if client ∈ clients then [client] else []
  | .broadcast message =>
    match h.clients message.UserID with
    | none => []
    | some clients => broadcastCloses message.Payload clients h.send
  | .recv _ => []

/-- The clients whose channel the loop closed (or tried to close) while
processing a sequence of commands, one entry per `close`, oldest first. -/
def runCloses (h : Hub) : List Cmd → List Client
  | [] => []
  | cmd :: rest =>
    stepCloses h cmd ++
      match step h cmd with
      | .ok h1 => runCloses h1 rest
      | .panic _ => []

/-- A sequence of commands registers no connection again after the loop
unregistered or evicted it (that is, after the loop closed its channel). -/
def NoReuse (h : Hub) (cmds : List Cmd) : Prop :=
  ∀ pre C post, cmds = pre ++ Cmd.register C :: post → C ∉ runCloses h pre

/-- Every connection has an open channel when it is registered for the first
time in a sequence of commands. -/
def FirstOpen (h : Hub) (cmds : List Cmd) : Prop :=
  ∀ pre C post, cmds = pre ++ Cmd.register C :: post → Cmd.register C ∉ pre →
    ((run h pre).state.send C).closed = false

/-! ### Publishing -/

/-- A JSON value. -/
inductive JSON where
  | null
  | str (s : String)
  | obj (members : List (String × JSON))

/-- A Go value as `encoding/json` sees it through reflection: a nil interface,
a string, a `uuid.UUID` (it implements `encoding.TextMarshaler`), a struct given
by the `json` tags and values of its fields in declaration order, or a value of
a type that cannot be encoded (a channel, a function). -/
inductive GoValue where
  | nil
  | string (s : String)
  | uuid (u : UUID)
  | struct (fields : List (String × GoValue))
  | unsupported

/-- The textual form of a `uuid.UUID`; only that it is a string matters. -/
def uuidString (u : UUID) : String := toString u

mutual
/-- Modelled from the spec: `json.Marshal` is library code that is not among
the sources.  A struct is encoded as an object with one member per field, named
by the field's `json` tag, in declaration order; a string as a JSON string; a
`uuid.UUID` as the JSON string of its text form; a nil interface as `null`; a
value of an unsupported type makes the whole encoding fail. -/
def jsonMarshal : GoValue → Except String JSON
  | .nil => .ok .null
  | .string s => .ok (.str s)
  | .uuid u => .ok (.str (uuidString u))
  | .struct fields =>
    match marshalFields fields with
    | .ok members => .ok (.obj members)
    | .error e => .error e
  | .unsupported => .error "json: unsupported type"
/-- The members of the object a struct is encoded as. -/
def marshalFields : List (String × GoValue) → Except String (List (String × JSON))
  | [] => .ok []
  | (tag, v) :: rest =>
    match jsonMarshal v with
    | .error e => .error e
    | .ok j =>
      match marshalFields rest with
      | .error e => .error e
      | .ok members => .ok ((tag, j) :: members)
end

/-- The type `Event` of `hub.go`; `Payload` is an `interface{}`.  (The field
`Type` is spelled `Typ`.) -/
structure Event where
  Typ : String
  Payload : GoValue

/-- The type `ViewEvent` of `hub.go`. -/
structure ViewEvent where
  StoryID : UUID
  ViewerID : UUID
  ViewedAt : String

/-- The type `ReactionEvent` of `hub.go`. -/
structure ReactionEvent where
  StoryID : UUID
  UserID : UUID
  Emoji : String

/-- The struct `Event` with its `json` tags. -/
def Event.toGo (e : Event) : GoValue :=
  .struct [("type", .string e.Typ), ("payload", e.Payload)]

/-- The struct `ViewEvent` with its `json` tags. -/
def ViewEvent.toGo (v : ViewEvent) : GoValue :=
  .struct [("story_id", .uuid v.StoryID), ("viewer_id", .uuid v.ViewerID),
    ("viewed_at", .string v.ViewedAt)]

/-- The struct `ReactionEvent` with its `json` tags. -/
def ReactionEvent.toGo (r : ReactionEvent) : GoValue :=
  .struct [("story_id", .uuid r.StoryID), ("user_id", .uuid r.UserID),
    ("emoji", .string r.Emoji)]

/-- The names of the members of a JSON object, in order; nothing for a value
that is not an object. -/
def JSON.memberNames : JSON → List String
  | .obj members => members.map Prod.fst
  | _ => []

/-- The capacity of the command channel: `make(chan *Message, 256)`. -/
def broadcastCap : Nat := 256

/-- The hub with its command channel `h.broadcast`.  `broadcast` lists the
messages that were sent and not yet received by the loop, oldest first: the
buffered ones followed by the values of the senders parked on a full buffer. -/
structure System where
  hub : Hub
  broadcast : List Message

/-- How a call ends for its caller: it returned with a result, or the caller is
parked on a full channel until the loop receives. -/
inductive Call (ρ σ : Type) where
  | returned (result : ρ) (s : σ)
  | parked (s : σ)

/-- The state a call leaves. -/
def Call.state {ρ σ : Type} : Call ρ σ → σ
  | .returned _ s => s
  | .parked s => s

/-- The method `Hub.SendToUser`; `marshal` is `json.Marshal` followed by the
rendering as bytes.  The Go method has no result, so the result is `()`. -/
def SendToUser (marshal : Event → Except String Bytes) (s : System) (userID : UUID)
    (event : Event) : Call Unit System :=
  match marshal event with
  | .error _ => .returned () s
  | .ok payload =>
    let s1 : System := { s with broadcast := s.broadcast ++ [⟨userID, payload⟩] }
    if s.broadcast.length < broadcastCap then .returned () s1 else .parked s1

/-- The function `json.Marshal` on an `Event`, with a rendering of JSON values
as bytes. -/
def Marshal (render : JSON → Bytes) (event : Event) : Except String Bytes :=
  match jsonMarshal event.toGo with
  | .ok j => .ok (render j)
  | .error e => .error e

/-- A system right after `NewHub`: nothing registered, nothing published. -/
def freshSystem : System :=
  { hub := NewHub fun _ => Chan.make 1, broadcast := [] }

/-- A hub in which user 7 has one connection whose queue of capacity 1 is full. -/
def fullHub : Hub :=
  (run (NewHub fun _ => Chan.make 1) [.register ⟨0, 7⟩, .broadcast ⟨7, [1]⟩]).state

/-- A hub in which the client `⟨0, 7⟩` was registered and unregistered: it is in
no set and its channel is closed. -/
def closedHub : Hub :=
  (run (NewHub fun _ => Chan.make 1) [.register ⟨0, 7⟩, .unregister ⟨0, 7⟩]).state

/-- Two connections of user 7 with queues of capacity 1 are registered, two
payloads are broadcast (the second broadcast evicts both), and both connections
are unregistered afterwards, the first one twice. -/
def shutdownCmds : List Cmd :=
  [.register ⟨0, 7⟩, .register ⟨1, 7⟩, .broadcast ⟨7, [1]⟩, .broadcast ⟨7, [2]⟩,
   .unregister ⟨0, 7⟩, .unregister ⟨1, 7⟩, .unregister ⟨0, 7⟩]

/-- The broadcast case of `Hub.Run` with the order in which `range clients`
yields the keys of the inner map made explicit: `order` lists the keys in the
order of the visit.  `broadcast` is the case `order = clients`. -/
def broadcastVisiting (h : Hub) (message : Message) (order : List Client) : Outcome Hub :=
  match h.clients message.UserID with
  | none => .ok h
  | some clients =>
    match broadcastLoop message.Payload order clients h.send with
    | .ok (clients1, send1) =>
      .ok { clients := Function.update h.clients message.UserID (some clients1), send := send1 }
    | .panic (clients1, send1) =>
      .panic { clients := Function.update h.clients message.UserID (some clients1), send := send1 }

/-! ### The story handler (`internal/handlers/stories.go`) -/

/-- The type `models.Story`; times are instants. -/
structure Story where
  ID : UUID
  AuthorID : UUID
  Text : Option String
  MediaKey : Option String
  Visibility : String
  CreatedAt : Nat
  ExpiresAt : Nat
  DeletedAt : Option Nat
deriving DecidableEq, Repr

/-- The outcome of the query for a story that is not deleted:
`QueryRow(...).Scan(...)` filled the story, reported `sql.ErrNoRows`, or failed
otherwise. -/
inductive StoryRow where
  | found (story : Story)
  | noRows
  | failed (err : String)
deriving DecidableEq, Repr

/-- The body of a JSON response: a story, or `gin.H{"error": msg}`. -/
inductive Body where
  | story (s : Story)
  | error (msg : String)
deriving DecidableEq, Repr

/-- What `c.JSON(status, body)` writes. -/
structure Response where
  status : Nat
  body : Body
deriving DecidableEq, Repr

/-- The constant `http.StatusOK`. -/
def StatusOK : Nat := 200

/-- The constant `http.StatusBadRequest`. -/
def StatusBadRequest : Nat := 400

/-- The constant `http.StatusUnauthorized`. -/
def StatusUnauthorized : Nat := 401

/-- The constant `http.StatusForbidden`. -/
def StatusForbidden : Nat := 403

/-- The constant `http.StatusNotFound`. -/
def StatusNotFound : Nat := 404

/-- The constant `http.StatusInternalServerError`. -/
def StatusInternalServerError : Nat := 500

/-- The computation of `canView` in `GetStory` (lines 160-173).  `follows` is
the lookup in the table of follows: the value scanned into `isFollowing`, or the
error of the query. -/
def canView (story : Story) (userID : UUID) (follows : UUID → UUID → Except String Bool) : Bool :=
  if story.AuthorID = userID then true
  else if story.Visibility = "public" then true
  else if story.Visibility = "friends" then
    match follows userID story.AuthorID with
    | .ok isFollowing => isFollowing
    | .error _ => false
  else false

/-- The handler `StoriesHandler.GetStory`.  `auth` is the result of
`middleware.GetUserID`, `parsed` the result of `uuid.Parse` on the path
parameter, `query` the query for the story, `follows` the follow lookup. -/
def GetStory (auth : Option UUID) (parsed : Except String UUID) (query : UUID → StoryRow)
    (follows : UUID → UUID → Except String Bool) : Response :=
  match auth with
  | none => ⟨StatusUnauthorized, .error "unauthorized"⟩
  | some userID =>
    match parsed with
    | .error _ => ⟨StatusBadRequest, .error "invalid story id"⟩
    | .ok storyID =>
      match query storyID with
      | .noRows => ⟨StatusNotFound, .error "story not found"⟩
      | .failed _ => ⟨StatusInternalServerError, .error "internal server error"⟩
      | .found story =>
        if !canView story userID follows then ⟨StatusForbidden, .error "access denied"⟩
        else ⟨StatusOK, .story story⟩

/-! ### The rate limiter (`internal/cache/cache.go`) -/

/-- A command sent to the Redis server. -/
inductive RedisCmd where
  | incr (key : String)
  | expire (key : String) (window : Nat)
deriving DecidableEq, Repr

/-- A `*redis.Client` as `CheckRateLimit` uses it: the result of
`Incr(ctx, key).Result()`, the counter after the increment or an error. -/
structure RedisClient where
  Incr : String → Except String Int

/-- The type `Cache`; a nil `client` is `none`. -/
structure Cache where
  client : Option RedisClient

/-- The two results of `CheckRateLimit` and the commands it sent, in order. -/
structure RateLimit where
  allowed : Bool
  err : Option String
  sent : List RedisCmd

/-- The method `Cache.CheckRateLimit`; a nil receiver is `none`. -/
def CheckRateLimit (c : Option Cache) (userID : UUID) (action : String) (limit : Int)
    (window : Nat) : RateLimit :=
  match c with
  | none => ⟨true, none, []⟩
  | some c =>
    match c.client with
    | none => ⟨true, none, []⟩
    | some client =>
      let key := "ratelimit:" ++ action ++ ":" ++ uuidString userID
      match client.Incr key with
      | .error _ => ⟨true, none, [.incr key]⟩
      | .ok count =>
        if count = 1 then ⟨decide (count ≤ limit), none, [.incr key, .expire key window]⟩
        else ⟨decide (count ≤ limit), none, [.incr key]⟩

/-! ### Presigned uploads (`internal/storage/storage.go`) -/

/-- A story of user 1 that only followers may see. -/
def friendsStory : Story :=
  { ID := 10, AuthorID := 1, Text := some "hi", MediaKey := none, Visibility := "friends",
    CreatedAt := 0, ExpiresAt := 86400, DeletedAt := none }

/-- The client `⟨0, 7⟩` is registered, unregistered, registered again and
unregistered again: Register and Unregister commands only. -/
def reuseCmds : List Cmd :=
  [.register ⟨0, 7⟩, .unregister ⟨0, 7⟩, .register ⟨0, 7⟩, .unregister ⟨0, 7⟩]

/-- Two connections of user 3 are registered and the first one is unregistered. -/
def leaveCmds : List Cmd :=
  [.register ⟨0, 3⟩, .register ⟨1, 3⟩, .unregister ⟨0, 3⟩]

/-- Commands after the registration of a lone connection `⟨0, 3⟩`: two
broadcasts to user 3 with a receive of its writer in between. -/
def soloPost : List Cmd :=
  [.broadcast ⟨3, [1]⟩, .recv ⟨0, 3⟩, .broadcast ⟨3, [2]⟩]

/-- The connection `⟨1, 3⟩` is registered, unregistered and registered again:
it is a member of the set of user 3 with a closed channel. -/
def siblingPre : List Cmd :=
  [.register ⟨1, 3⟩, .unregister ⟨1, 3⟩, .register ⟨1, 3⟩]

/-- The hub after `siblingPre` and the registration of `⟨0, 3⟩`, on fresh
channels of capacity 2. -/
def siblingHub : Hub :=
  (run (NewHub fun _ => Chan.make 2) (siblingPre ++ [.register ⟨0, 3⟩])).state

/-- A stand-in for the rendering of a JSON value as bytes: the lengths of the
names of its members. -/
def nameLengths (j : JSON) : Bytes := j.memberNames.map String.length

/-! ## The broadcast loop -/

theorem trySend_open_free (ch : Chan) (v : Bytes) (ho : ch.closed = false) (hf : ch.full = false) :
    ch.trySend v = .sent { ch with buf := ch.buf ++ [v] } := by
  have hlt : ch.buf.length < ch.cap := by
    simpa [Chan.full] using hf
  simp [Chan.trySend, ho, hlt]

theorem trySend_open_full (ch : Chan) (v : Bytes) (ho : ch.closed = false) (hf : ch.full = true) :
    ch.trySend v = .wouldBlock := by
  have hle : ¬ ch.buf.length < ch.cap := by
    have : ch.cap ≤ ch.buf.length := by simpa [Chan.full] using hf
    omega
  simp [Chan.trySend, ho, hle]

theorem trySend_closed (ch : Chan) (v : Bytes) (hc : ch.closed = true) :
    ch.trySend v = .panic := by
  simp [Chan.trySend, hc]

theorem close_open (ch : Chan) (ho : ch.closed = false) :
    ch.close = some { ch with closed := true } := by
  simp [Chan.close, ho]

theorem broadcastLoop_open (payload : Bytes) :
    ∀ (visited clients : List Client) (send : Client → Chan), visited.Nodup →
      (∀ c ∈ visited, (send c).closed = false) →
      broadcastLoop payload visited clients send
        = .ok (survivors visited clients send, delivered payload visited send) := by
  intro visited
  induction visited with
  | nil =>
    intro clients send _ _
    have h1 : survivors [] clients send = clients := by simp [survivors]
    have h2 : delivered payload [] send = send := by
      funext x
      simp [delivered]
    rw [broadcastLoop, h1, h2]
  | cons c rest ih =>
    intro clients send hnd hopen
    have hc : c ∉ rest := (List.nodup_cons.mp hnd).1
    have hrest : rest.Nodup := (List.nodup_cons.mp hnd).2
    have hco : (send c).closed = false := hopen c (List.mem_cons_self _ _)
    have hne : ∀ x ∈ rest, x ≠ c := fun x hx hxc => hc (hxc ▸ hx)
    cases hf : (send c).full with
    | false =>
      have hopen1 : ∀ x ∈ rest,
          (Function.update send c { send c with buf := (send c).buf ++ [payload] } x).closed = false := by
        intro x hx
        rw [Function.update_noteq (hne x hx)]
        exact hopen x (List.mem_cons_of_mem _ hx)
      rw [broadcastLoop, trySend_open_free _ _ hco hf]
      simp only
      rw [ih _ _ hrest hopen1]
      congr 2
      · unfold survivors
        apply List.filter_congr
        intro x _
        by_cases hxc : x = c
        · subst hxc
          simp [hc, hf]
        · simp [Function.update_noteq hxc, hxc]
      · funext x
        unfold delivered
        by_cases hxc : x = c
        · subst hxc
          simp [hc, Chan.deliver, hf]
        · simp [Function.update_noteq hxc, hxc]
    | true =>
      have hopen1 : ∀ x ∈ rest,
          (Function.update send c { send c with closed := true } x).closed = false := by
        intro x hx
        rw [Function.update_noteq (hne x hx)]
        exact hopen x (List.mem_cons_of_mem _ hx)
      rw [broadcastLoop, trySend_open_full _ _ hco hf]
      simp only
      rw [close_open _ hco]
      simp only
      rw [ih _ _ hrest hopen1]
      congr 2
      · unfold survivors deleteClient
        rw [List.filter_filter]
        apply List.filter_congr
        intro x _
        by_cases hxc : x = c
        · subst hxc
          simp [hf]
        · simp [Function.update_noteq hxc, hxc]
      · funext x
        unfold delivered
        by_cases hxc : x = c
        · subst hxc
          simp [hc, Chan.deliver, hf]
        · simp [Function.update_noteq hxc, hxc]

theorem broadcastLoop_closed (payload : Bytes) :
    ∀ (visited clients : List Client) (send : Client → Chan), visited.Nodup →
      (∃ c ∈ visited, (send c).closed = true) →
      (broadcastLoop payload visited clients send).isOk = false := by
  intro visited
  induction visited with
  | nil =>
    intro clients send _ hex
    obtain ⟨c, hc, _⟩ := hex
    cases hc
  | cons c rest ih =>
    intro clients send hnd hex
    have hc : c ∉ rest := (List.nodup_cons.mp hnd).1
    have hrest : rest.Nodup := (List.nodup_cons.mp hnd).2
    cases hco : (send c).closed with
    | true =>
      rw [broadcastLoop, trySend_closed _ _ hco]
      rfl
    | false =>
      obtain ⟨x, hx, hxc⟩ := hex
      have hxrest : x ∈ rest := by
        rcases List.mem_cons.mp hx with hxe | hxr
        · subst hxe
          rw [hco] at hxc
          cases hxc
        · exact hxr
      have hxne : x ≠ c := fun hxe => hc (hxe ▸ hxrest)
      cases hf : (send c).full with
      | false =>
        rw [broadcastLoop, trySend_open_free _ _ hco hf]
        simp only
        apply ih _ _ hrest
        exact ⟨x, hxrest, by rw [Function.update_noteq hxne]; exact hxc⟩
      | true =>
        rw [broadcastLoop, trySend_open_full _ _ hco hf]
        simp only
        rw [close_open _ hco]
        simp only
        apply ih _ _ hrest
        exact ⟨x, hxrest, by rw [Function.update_noteq hxne]; exact hxc⟩

/-- Whatever happens, the loop only touches the channels of the visited clients,
and only deletes from the inner map. -/
theorem broadcastLoop_frame (payload : Bytes) :
    ∀ (visited clients : List Client) (send : Client → Chan),
      (∀ c, c ∉ visited → (broadcastLoop payload visited clients send).state.2 c = send c) ∧
      (broadcastLoop payload visited clients send).state.1.Sublist clients := by
  intro visited
  induction visited with
  | nil =>
    intro clients send
    exact ⟨fun c _ => rfl, List.Sublist.refl _⟩
  | cons c rest ih =>
    intro clients send
    rw [broadcastLoop]
    cases hts : (send c).trySend payload with
    | panic => exact ⟨fun c _ => rfl, List.Sublist.refl _⟩
    | sent ch =>
      simp only
      refine ⟨fun x hx => ?_, (ih _ _).2⟩
      have hxc : x ≠ c := fun h => hx (h ▸ List.mem_cons_self _ _)
      have hxr : x ∉ rest := fun h => hx (List.mem_cons_of_mem _ h)
      rw [(ih _ _).1 x hxr, Function.update_noteq hxc]
    | wouldBlock =>
      simp only
      cases hcl : (send c).close with
      | none => exact ⟨fun c _ => rfl, List.Sublist.refl _⟩
      | some ch =>
        simp only
        refine ⟨fun x hx => ?_, (ih _ _).2.trans (List.filter_sublist _)⟩
        have hxc : x ≠ c := fun h => hx (h ▸ List.mem_cons_self _ _)
        have hxr : x ∉ rest := fun h => hx (List.mem_cons_of_mem _ h)
        rw [(ih _ _).1 x hxr, Function.update_noteq hxc]

theorem members_of_some {h : Hub} {userID : UUID} {clients : List Client}
    (hc : h.clients userID = some clients) : h.members userID = clients := by
  simp [Hub.members, hc]

theorem members_of_none {h : Hub} {userID : UUID}
    (hc : h.clients userID = none) : h.members userID = [] := by
  simp [Hub.members, hc]

theorem mem_survivors {visited clients : List Client} {send : Client → Chan} {c : Client} :
    c ∈ survivors visited clients send ↔ c ∈ clients ∧ (c ∈ visited → (send c).full = false) := by
  simp only [survivors, List.mem_filter, Bool.not_eq_true', Bool.and_eq_false_imp,
    decide_eq_true_eq]

/-- The broadcast case on a user whose connections all have an open channel. -/
theorem broadcast_open (h : Hub) (userID : UUID) (payload : Bytes) (clients : List Client)
    (hc : h.clients userID = some clients) (hnd : clients.Nodup)
    (hopen : ∀ c ∈ clients, (h.send c).closed = false) :
    broadcast h ⟨userID, payload⟩
      = .ok { clients := Function.update h.clients userID (some (survivors clients clients h.send)),
              send := delivered payload clients h.send } := by
  simp only [broadcast, hc]
  rw [broadcastLoop_open payload clients clients h.send hnd hopen]

/-! ## How one step changes the map -/

/-- The entry of a user after a step is the old entry, or no entry, or a
sublist of the old entry, or the old entry with one client of that user
inserted. -/
theorem step_clients (h : Hub) (cmd : Cmd) (u : UUID) :
    (step h cmd).state.clients u = h.clients u ∨
    (step h cmd).state.clients u = none ∨
    (∃ old new, h.clients u = some old ∧ (step h cmd).state.clients u = some new ∧
      new.Sublist old) ∨
    (∃ c, c.UserID = u ∧ (step h cmd).state.clients u = some (insertClient (h.members u) c)) := by
  cases cmd with
  | register c =>
    by_cases hu : u = c.UserID
    · subst hu
      right; right; right
      refine ⟨c, rfl, ?_⟩
      simp only [step, register, Outcome.state, Function.update_same, Hub.members]
    · left
      simp only [step, register, Outcome.state, Function.update_noteq hu]
  | unregister c =>
    simp only [step, unregister]
    cases hc : h.clients c.UserID with
    | none => left; rfl
    | some clients =>
      simp only
      by_cases hm : c ∈ clients
      · simp only [hm, if_true]
        by_cases hu : u = c.UserID
        · subst hu
          cases hcl : (h.send c).close with
          | none =>
            right; right; left
            exact ⟨clients, deleteClient clients c, hc, by simp [Outcome.state],
              List.filter_sublist _⟩
          | some ch =>
            simp only
            by_cases hlen : (deleteClient clients c).length = 0
            · right; left
              simp [hlen, Outcome.state]
            · right; right; left
              exact ⟨clients, deleteClient clients c, hc, by simp [hlen, Outcome.state],
                List.filter_sublist _⟩
        · left
          cases hcl : (h.send c).close with
          | none => simp [Outcome.state, Function.update_noteq hu]
          | some ch =>
            simp only
            by_cases hlen : (deleteClient clients c).length = 0
            · simp [hlen, Outcome.state, Function.update_noteq hu]
            · simp [hlen, Outcome.state, Function.update_noteq hu]
      · left
        simp [hm, Outcome.state]
  | broadcast m =>
    simp only [step, broadcast]
    cases hc : h.clients m.UserID with
    | none => left; rfl
    | some clients =>
      simp only
      have hsub := (broadcastLoop_frame m.Payload clients clients h.send).2
      by_cases hu : u = m.UserID
      · subst hu
        right; right; left
        refine ⟨clients, (broadcastLoop m.Payload clients clients h.send).state.1, hc, ?_, hsub⟩
        cases hl : broadcastLoop m.Payload clients clients h.send with
        | ok r => simp [Outcome.state]
        | panic r => simp [Outcome.state]
      · left
        cases hl : broadcastLoop m.Payload clients clients h.send with
        | ok r => simp [Outcome.state, Function.update_noteq hu]
        | panic r => simp [Outcome.state, Function.update_noteq hu]
  | recv c =>
    left
    rfl

theorem insertClient_nodup {clients : List Client} (c : Client) (hnd : clients.Nodup) :
    (insertClient clients c).Nodup := by
  unfold insertClient
  by_cases hm : c ∈ clients
  · simpa [hm] using hnd
  · simp only [hm, if_false]
    rw [List.nodup_append]
    refine ⟨hnd, List.nodup_singleton c, ?_⟩
    intro x hx hx1
    rw [List.mem_singleton] at hx1
    exact hm (hx1 ▸ hx)

theorem mem_insertClient {clients : List Client} {c x : Client} :
    x ∈ insertClient clients c ↔ x = c ∨ x ∈ clients := by
  unfold insertClient
  by_cases hm : c ∈ clients
  · simp only [hm, if_true]
    constructor
    · exact fun h => Or.inr h
    · rintro (h | h)
      · exact h ▸ hm
      · exact h
  · simp only [hm, if_false, List.mem_append, List.mem_singleton]
    tauto

theorem step_WF (h : Hub) (cmd : Cmd) (hwf : h.WF) : (step h cmd).state.WF := by
  intro u clients hu
  rcases step_clients h cmd u with h1 | h1 | ⟨old, new, ho, hn, hsub⟩ | ⟨c, _, hc⟩
  · exact hwf u clients (h1 ▸ hu)
  · rw [h1] at hu
    cases hu
  · rw [hn] at hu
    cases hu
    exact hsub.nodup (hwf u old ho)
  · rw [hc] at hu
    cases hu
    apply insertClient_nodup
    cases hm : h.clients u with
    | none => simp [Hub.members, hm]
    | some old => simpa [Hub.members, hm] using hwf u old hm

theorem step_Keyed (h : Hub) (cmd : Cmd) (hk : h.Keyed) : (step h cmd).state.Keyed := by
  intro u clients hu
  rcases step_clients h cmd u with h1 | h1 | ⟨old, new, ho, hn, hsub⟩ | ⟨c, hcu, hc⟩
  · exact hk u clients (h1 ▸ hu)
  · rw [h1] at hu
    cases hu
  · rw [hn] at hu
    cases hu
    exact fun x hx => hk u old ho x (hsub.subset hx)
  · rw [hc] at hu
    cases hu
    intro x hx
    rcases mem_insertClient.mp hx with hxc | hxo
    · exact hxc ▸ hcu
    · cases hm : h.clients u with
      | none => simp [Hub.members, hm] at hxo
      | some old =>
        rw [members_of_some hm] at hxo
        exact hk u old hm x hxo

theorem run_cons_ok {h h1 : Hub} {cmd : Cmd} (rest : List Cmd) (hs : step h cmd = .ok h1) :
    run h (cmd :: rest) = run h1 rest := by
  simp [run, hs]

theorem run_cons_panic {h h1 : Hub} {cmd : Cmd} (rest : List Cmd) (hs : step h cmd = .panic h1) :
    run h (cmd :: rest) = .panic h1 := by
  simp [run, hs]

/-- An invariant of every step is an invariant of every run. -/
theorem run_invariant (P : Hub → Prop) (hstep : ∀ h cmd, P h → P (step h cmd).state) :
    ∀ (cmds : List Cmd) (h : Hub), P h → P (run h cmds).state := by
  intro cmds
  induction cmds with
  | nil => exact fun h hp => hp
  | cons cmd rest ih =>
    intro h hp
    have h1 := hstep h cmd hp
    cases hs : step h cmd with
    | ok g =>
      rw [run_cons_ok rest hs]
      rw [hs] at h1
      exact ih g h1
    | panic g =>
      rw [run_cons_panic rest hs]
      rw [hs] at h1
      exact h1

theorem NewHub_WF (send : Client → Chan) : (NewHub send).WF := by
  intro u clients hu
  cases hu

theorem NewHub_Keyed (send : Client → Chan) : (NewHub send).Keyed := by
  intro u clients hu
  cases hu

theorem run_WF (send : Client → Chan) (cmds : List Cmd) : (run (NewHub send) cmds).state.WF :=
  run_invariant Hub.WF step_WF cmds _ (NewHub_WF send)

theorem run_Keyed (send : Client → Chan) (cmds : List Cmd) :
    (run (NewHub send) cmds).state.Keyed :=
  run_invariant Hub.Keyed step_Keyed cmds _ (NewHub_Keyed send)

/-- The broadcast case touches one entry of the map and the channels of its members only. -/
theorem broadcast_frame (h : Hub) (U : UUID) (p : Bytes) :
    (∀ u, u ≠ U → (step h (.broadcast ⟨U, p⟩)).state.clients u = h.clients u) ∧
    (∀ c, c ∉ h.members U → (step h (.broadcast ⟨U, p⟩)).state.send c = h.send c) := by
  simp only [step, broadcast]
  cases hc : h.clients U with
  | none => exact ⟨fun _ _ => rfl, fun _ _ => rfl⟩
  | some clients =>
    simp only [members_of_some hc]
    have hfr := (broadcastLoop_frame p clients clients h.send).1
    cases hl : broadcastLoop p clients clients h.send with
    | ok r =>
      rw [hl] at hfr
      exact ⟨fun u hu => by simp [Outcome.state, Function.update_noteq hu],
        fun c hcm => hfr c hcm⟩
    | panic r =>
      rw [hl] at hfr
      exact ⟨fun u hu => by simp [Outcome.state, Function.update_noteq hu],
        fun c hcm => hfr c hcm⟩

/-! ## The broadcast (Deliver) case -/

/-- The broadcast case when every connection of the user has an open channel. -/
theorem broadcast_evicts_full (h : Hub) (U : UUID) (p : Bytes) (hwf : h.WF)
    (hopen : ∀ c ∈ h.members U, (h.send c).closed = false) :
    ∃ h1, step h (.broadcast ⟨U, p⟩) = .ok h1 ∧
      ∀ c ∈ h.members U,
        ((h.send c).full = true →
          c ∉ h1.members U ∧ h1.send c = { h.send c with closed := true }) ∧
        ((h.send c).full = false →
          c ∈ h1.members U ∧ h1.send c = { h.send c with buf := (h.send c).buf ++ [p] }) := by
  cases hc : h.clients U with
  | none =>
    refine ⟨h, by simp [step, broadcast, hc], ?_⟩
    intro c hcm
    rw [members_of_none hc] at hcm
    cases hcm
  | some clients =>
    rw [members_of_some hc] at hopen
    refine ⟨_, broadcast_open h U p clients hc (hwf U clients hc) hopen, ?_⟩
    intro c hcm
    rw [members_of_some hc] at hcm
    have hm : ∀ x, x ∈ Hub.members
        { clients := Function.update h.clients U (some (survivors clients clients h.send)),
          send := delivered p clients h.send } U ↔ x ∈ survivors clients clients h.send := by
      intro x
      simp [Hub.members]
    constructor
    · intro hf
      refine ⟨?_, ?_⟩
      · rw [hm, mem_survivors]
        intro hx
        rw [hx.2 hcm] at hf
        cases hf
      · simp [delivered, hcm, Chan.deliver, hf]
    · intro hf
      refine ⟨?_, ?_⟩
      · rw [hm, mem_survivors]
        exact ⟨hcm, fun _ => hf⟩
      · simp [delivered, hcm, Chan.deliver, hf]

/-- C1 (as amended): for every state reachable from the empty registry in which
every connection of user `U` has an open, buffered channel (capacity at least
1), and every payload `p`, processing the broadcast message `(U, p)` completes,
and afterwards every connection of `U` whose queue was full (it then holds at
least one item) is no longer in the set of `U` and has its queue closed with
the contents untouched, while every connection of `U` whose queue was not full
is still in the set of `U` and has `p` appended at the tail of its queue. -/
theorem deliver_evicts_full (send : Client → Chan) (cmds : List Cmd) (h : Hub) (U : UUID)
    (p : Bytes) (hreach : run (NewHub send) cmds = .ok h)
    (hopen : ∀ c ∈ h.members U, (h.send c).closed = false)
    (hcap : ∀ c ∈ h.members U, 0 < (h.send c).cap) :
    ∃ h1, step h (.broadcast ⟨U, p⟩) = .ok h1 ∧
      ∀ c ∈ h.members U,
        ((h.send c).full = true →
          (h.send c).buf ≠ [] ∧
          c ∉ h1.members U ∧ h1.send c = { h.send c with closed := true }) ∧
        ((h.send c).full = false →
          c ∈ h1.members U ∧ h1.send c = { h.send c with buf := (h.send c).buf ++ [p] }) := by
  have hwf : h.WF := by
    have := run_WF send cmds
    rw [hreach] at this
    exact this
  obtain ⟨h1, hs, hall⟩ := broadcast_evicts_full h U p hwf hopen
  refine ⟨h1, hs, ?_⟩
  intro c hc
  refine ⟨fun hf => ⟨?_, (hall c hc).1 hf⟩, (hall c hc).2⟩
  intro hnil
  have hle : (h.send c).cap ≤ (h.send c).buf.length := by
    simpa [Chan.full] using hf
  rw [hnil] at hle
  have := hcap c hc
  simp only [List.length_nil] at hle
  omega

/-- Witness of `deliver_evicts_full`: user 7 with two connections of capacity
1, one with a full queue and one with an empty queue. -/
theorem deliver_evicts_full_witness :
    ∃ h1, step twoClientHub (.broadcast ⟨7, [2]⟩) = .ok h1 ∧
      ∀ c ∈ twoClientHub.members 7,
        ((twoClientHub.send c).full = true →
          (twoClientHub.send c).buf ≠ [] ∧
          c ∉ h1.members 7 ∧ h1.send c = { twoClientHub.send c with closed := true }) ∧
        ((twoClientHub.send c).full = false →
          c ∈ h1.members 7 ∧
            h1.send c = { twoClientHub.send c with buf := (twoClientHub.send c).buf ++ [[2]] }) :=
  deliver_evicts_full (fun _ => Chan.make 1)
    [.register ⟨0, 7⟩, .broadcast ⟨7, [1]⟩, .register ⟨1, 7⟩, .recv ⟨1, 7⟩, .register ⟨5, 8⟩]
    twoClientHub 7 [2] rfl
    (by
      intro c hc
      have h2 : twoClientHub.members 7 = [⟨0, 7⟩, ⟨1, 7⟩] := by decide
      rw [h2] at hc
      rcases List.mem_cons.mp hc with h0 | h1
      · rw [h0]
        decide
      · rw [List.mem_singleton.mp h1]
        decide)
    (by
      intro c hc
      have h2 : twoClientHub.members 7 = [⟨0, 7⟩, ⟨1, 7⟩] := by decide
      rw [h2] at hc
      rcases List.mem_cons.mp hc with h0 | h1
      · rw [h0]
        decide
      · rw [List.mem_singleton.mp h1]
        decide)

/-- C1, counterexample: after Register, Unregister, Register of one client its
channel is closed while it is a member of the set of user 7; its queue is not
full, yet the broadcast to user 7 panics and the payload is not in its queue. -/
theorem deliver_evicts_full_counterexample :
    (run (NewHub fun _ => Chan.make 1)
        [.register ⟨0, 7⟩, .unregister ⟨0, 7⟩, .register ⟨0, 7⟩]).isOk = true ∧
      (⟨0, 7⟩ : Client) ∈ reusedHub.members 7 ∧
      (reusedHub.send ⟨0, 7⟩).full = false ∧
      (step reusedHub (.broadcast ⟨7, [1]⟩)).isOk = false ∧
      ((step reusedHub (.broadcast ⟨7, [1]⟩)).state.send ⟨0, 7⟩).buf = [] := by
  decide

/-- The broadcast case when every connection of the user is open and not full. -/
theorem broadcast_all_open (h : Hub) (U : UUID) (p : Bytes) (hwf : h.WF)
    (hopen : ∀ c ∈ h.members U, (h.send c).closed = false)
    (hfree : ∀ c ∈ h.members U, (h.send c).full = false) :
    ∃ h1, step h (.broadcast ⟨U, p⟩) = .ok h1 ∧ h1.clients = h.clients ∧
      ∀ c ∈ h.members U, h1.send c = { h.send c with buf := (h.send c).buf ++ [p] } := by
  cases hc : h.clients U with
  | none =>
    rw [members_of_none hc] at hfree
    refine ⟨h, by simp [step, broadcast, hc], rfl, ?_⟩
    intro c hcm
    rw [members_of_none hc] at hcm
    cases hcm
  | some clients =>
    rw [members_of_some hc] at hopen hfree
    have hsurv : survivors clients clients h.send = clients := by
      unfold survivors
      rw [List.filter_eq_self]
      intro x hx
      simp [hfree x hx]
    refine ⟨_, broadcast_open h U p clients hc (hwf U clients hc) hopen, ?_, ?_⟩
    · simp only [hsurv]
      rw [← hc]
      exact Function.update_eq_self U h.clients
    · intro c hcm
      rw [members_of_some hc] at hcm
      simp [delivered, hcm, Chan.deliver, hfree c hcm]

/-- C2 (as amended): for every state reachable from the empty registry and user
`U` with `N` registered connections all of whose channels are open and none of
whose queues is full, and every payload `p`, processing the broadcast message
`(U, p)` completes, appends exactly one copy of `p` at the tail of each of the
`N` queues and leaves the user-to-connections mapping unchanged. -/
theorem deliver_all_open (send : Client → Chan) (cmds : List Cmd) (h : Hub) (U : UUID)
    (p : Bytes) (hreach : run (NewHub send) cmds = .ok h)
    (hopen : ∀ c ∈ h.members U, (h.send c).closed = false)
    (hfree : ∀ c ∈ h.members U, (h.send c).full = false) :
    ∃ h1, step h (.broadcast ⟨U, p⟩) = .ok h1 ∧ h1.clients = h.clients ∧
      ∀ c ∈ h.members U, h1.send c = { h.send c with buf := (h.send c).buf ++ [p] } := by
  have hwf : h.WF := by
    have := run_WF send cmds
    rw [hreach] at this
    exact this
  exact broadcast_all_open h U p hwf hopen hfree

/-- Witness of `deliver_all_open`: user 3 with two idle connections. -/
theorem deliver_all_open_witness :
    idleHub.members 3 = [⟨0, 3⟩, ⟨1, 3⟩] ∧
    ∃ h1, step idleHub (.broadcast ⟨3, [9]⟩) = .ok h1 ∧ h1.clients = idleHub.clients ∧
      ∀ c ∈ idleHub.members 3,
        h1.send c = { idleHub.send c with buf := (idleHub.send c).buf ++ [[9]] } :=
  ⟨by decide,
   deliver_all_open (fun _ => Chan.make 2) [.register ⟨0, 3⟩, .register ⟨1, 3⟩, .register ⟨2, 4⟩]
    idleHub 3 [9] rfl
    (by
      intro c hc
      have h2 : idleHub.members 3 = [⟨0, 3⟩, ⟨1, 3⟩] := by decide
      rw [h2] at hc
      rcases List.mem_cons.mp hc with h0 | h1
      · rw [h0]
        decide
      · rw [List.mem_singleton.mp h1]
        decide)
    (by
      intro c hc
      have h2 : idleHub.members 3 = [⟨0, 3⟩, ⟨1, 3⟩] := by decide
      rw [h2] at hc
      rcases List.mem_cons.mp hc with h0 | h1
      · rw [h0]
        decide
      · rw [List.mem_singleton.mp h1]
        decide)⟩

/-- C2, counterexample: user 3 has two registered connections, neither queue is
full, but the second connection was unregistered and registered again.  The
broadcast to user 3 panics at the second connection, whose queue stays empty. -/
theorem deliver_all_open_counterexample :
    (run (NewHub fun _ => Chan.make 2)
        [.register ⟨0, 3⟩, .register ⟨1, 3⟩, .unregister ⟨1, 3⟩, .register ⟨1, 3⟩]).isOk = true ∧
      staleHub.members 3 = [⟨0, 3⟩, ⟨1, 3⟩] ∧
      (staleHub.send ⟨0, 3⟩).full = false ∧ (staleHub.send ⟨1, 3⟩).full = false ∧
      (step staleHub (.broadcast ⟨3, [9]⟩)).isOk = false ∧
      ((step staleHub (.broadcast ⟨3, [9]⟩)).state.send ⟨1, 3⟩).buf = [] := by
  decide

/-- C3: for every state, user `U` and payload `p`, processing the broadcast
message `(U, p)` leaves the connection set of every other user unchanged and
leaves the channel (queue contents and closed flag) of every connection that is
not in the set of `U` unchanged; this holds for the state the step ends in,
whether it completes or not. -/
theorem deliver_frame (h : Hub) (U : UUID) (p : Bytes) :
    (∀ u, u ≠ U → (step h (.broadcast ⟨U, p⟩)).state.clients u = h.clients u) ∧
    (∀ c, c ∉ h.members U → (step h (.broadcast ⟨U, p⟩)).state.send c = h.send c) :=
  broadcast_frame h U p

/-- Witness of `deliver_frame`: a broadcast to user 3 leaves the set of user 4
and the channel of its connection as they were. -/
theorem deliver_frame_witness :
    (step idleHub (.broadcast ⟨3, [9]⟩)).state.clients 4 = idleHub.clients 4 ∧
    (step idleHub (.broadcast ⟨3, [9]⟩)).state.send ⟨2, 4⟩ = idleHub.send ⟨2, 4⟩ :=
  ⟨(deliver_frame idleHub 3 [9]).1 4 (by decide), (deliver_frame idleHub 3 [9]).2 ⟨2, 4⟩ (by decide)⟩

/-- C4: for every state and every user `U` that has no entry in the
user-to-connections mapping, processing the broadcast message `(U, p)` completes
without a panic and leaves the whole state unchanged. -/
theorem deliver_absent (h : Hub) (U : UUID) (p : Bytes) (habs : h.clients U = none) :
    step h (.broadcast ⟨U, p⟩) = .ok h := by
  simp [step, broadcast, habs]

/-- Witness of `deliver_absent`: user 5 has no entry in `idleHub`. -/
theorem deliver_absent_witness :
    idleHub.clients 5 = none ∧ step idleHub (.broadcast ⟨5, [9]⟩) = .ok idleHub :=
  ⟨by decide, deliver_absent idleHub 5 [9] (by decide)⟩

/-! ## Register and Unregister -/

theorem run_ok_invariant (P : Hub → Prop) (Q : Cmd → Prop)
    (hstep : ∀ h cmd g, Q cmd → P h → step h cmd = .ok g → P g) :
    ∀ (cmds : List Cmd) (h g : Hub), (∀ cmd ∈ cmds, Q cmd) → P h → run h cmds = .ok g → P g := by
  intro cmds
  induction cmds with
  | nil =>
    intro h g _ hp hrun
    simp only [run, Outcome.ok.injEq] at hrun
    exact hrun ▸ hp
  | cons cmd rest ih =>
    intro h g hq hp hrun
    cases hs : step h cmd with
    | ok h1 =>
      rw [run_cons_ok rest hs] at hrun
      exact ih h1 g (fun x hx => hq x (List.mem_cons_of_mem _ hx))
        (hstep h cmd h1 (hq cmd (List.mem_cons_self _ _)) hp hs) hrun
    | panic h1 =>
      rw [run_cons_panic rest hs] at hrun
      cases hrun

theorem deleteClient_ne_nil {clients : List Client} {c : Client}
    (hlen : ¬ (deleteClient clients c).length = 0) : deleteClient clients c ≠ [] := by
  intro hnil
  exact hlen (by rw [hnil]; rfl)

theorem insertClient_ne_nil (clients : List Client) (c : Client) : insertClient clients c ≠ [] := by
  intro hnil
  have hm : c ∈ insertClient clients c := mem_insertClient.mpr (Or.inl rfl)
  rw [hnil] at hm
  cases hm

/-- A completed register, unregister or receive step creates no empty set. -/
theorem step_NoEmpty (h : Hub) (cmd : Cmd) (g : Hub) (hq : cmd.isBroadcast = false)
    (hne : h.NoEmpty) (hs : step h cmd = .ok g) : g.NoEmpty := by
  intro u
  cases cmd with
  | register c =>
    simp only [step, register, Outcome.ok.injEq] at hs
    subst hs
    by_cases hu : u = c.UserID
    · subst hu
      simp only [Function.update_same, ne_eq, Option.some.injEq]
      exact insertClient_ne_nil _ c
    · simp only [Function.update_noteq hu]
      exact hne u
  | unregister c =>
    simp only [step, unregister] at hs
    cases hc : h.clients c.UserID with
    | none =>
      simp only [hc, Outcome.ok.injEq] at hs
      exact hs ▸ hne u
    | some clients =>
      simp only [hc] at hs
      by_cases hm : c ∈ clients
      · simp only [hm, if_true] at hs
        cases hcl : (h.send c).close with
        | none =>
          simp only [hcl] at hs
          cases hs
        | some ch =>
          simp only [hcl] at hs
          by_cases hlen : (deleteClient clients c).length = 0
          · simp only [hlen, if_true, Outcome.ok.injEq] at hs
            subst hs
            by_cases hu : u = c.UserID
            · subst hu
              simp
            · simp only [Function.update_noteq hu]
              exact hne u
          · simp only [hlen, if_false, Outcome.ok.injEq] at hs
            subst hs
            by_cases hu : u = c.UserID
            · subst hu
              simp only [Function.update_same, ne_eq, Option.some.injEq]
              exact deleteClient_ne_nil hlen
            · simp only [Function.update_noteq hu]
              exact hne u
      · simp only [hm, if_false, Outcome.ok.injEq] at hs
        exact hs ▸ hne u
  | broadcast m => cases hq
  | recv c =>
    simp only [step, Outcome.ok.injEq] at hs
    subst hs
    exact hne u

/-- C6, the code at the failing input: one connection of capacity 1 is
registered for user 7 and two payloads are broadcast to user 7.  All three
commands complete; the second broadcast evicts the connection and user 7 is left
mapped to an empty connection set. -/
theorem deliver_leaves_empty_set :
    (run (NewHub fun _ => Chan.make 1)
        [.register ⟨0, 7⟩, .broadcast ⟨7, [1]⟩, .broadcast ⟨7, [2]⟩]).isOk = true ∧
      (run (NewHub fun _ => Chan.make 1)
        [.register ⟨0, 7⟩, .broadcast ⟨7, [1]⟩, .broadcast ⟨7, [2]⟩]).state.clients 7 = some [] ∧
      (run (NewHub fun _ => Chan.make 1)
        [.register ⟨0, 7⟩, .broadcast ⟨7, [1]⟩, .unregister ⟨0, 7⟩]).state.clients 7 = none := by
  decide

/-- C8: for every state and connection `C`, processing Register(`C`) completes;
afterwards the user of `C` has an entry, `C` is a member of it, every connection
previously in that set is still in it, and the entries of all other users and
all channels are unchanged. -/
theorem register_post (h : Hub) (C : Client) :
    ∃ h1, step h (.register C) = .ok h1 ∧
      h1.clients C.UserID ≠ none ∧ C ∈ h1.members C.UserID ∧
      (∀ x, x ∈ h.members C.UserID → x ∈ h1.members C.UserID) ∧
      (∀ u, u ≠ C.UserID → h1.clients u = h.clients u) ∧
      h1.send = h.send := by
  refine ⟨_, rfl, ?_, ?_, ?_, ?_, rfl⟩
  · simp
  · simp only [Hub.members, Function.update_same]
    exact mem_insertClient.mpr (Or.inl rfl)
  · intro x hx
    simp only [Hub.members, Function.update_same]
    exact mem_insertClient.mpr (Or.inr hx)
  · intro u hu
    simp only [Function.update_noteq hu]

/-- Witness of `register_post`: a third connection for user 3 in `idleHub`. -/
theorem register_post_witness :
    ∃ h1, step idleHub (.register ⟨7, 3⟩) = .ok h1 ∧
      h1.clients 3 ≠ none ∧ (⟨7, 3⟩ : Client) ∈ h1.members 3 ∧
      (⟨0, 3⟩ : Client) ∈ h1.members 3 ∧ h1.clients 4 = idleHub.clients 4 ∧
      h1.send = idleHub.send := by
  obtain ⟨h1, hs, hsome, hmem, hold, hother, hsend⟩ := register_post idleHub ⟨7, 3⟩
  exact ⟨h1, hs, hsome, hmem, hold ⟨0, 3⟩ (by decide), hother 4 (by decide), hsend⟩

theorem mem_deleteClient {clients : List Client} {c x : Client} :
    x ∈ deleteClient clients c ↔ x ∈ clients ∧ x ≠ c := by
  simp [deleteClient, List.mem_filter]

theorem deleteClient_length_zero {clients : List Client} {c : Client} :
    (deleteClient clients c).length = 0 ↔ ∀ x ∈ clients, x = c := by
  rw [List.length_eq_zero, List.eq_nil_iff_forall_not_mem]
  constructor
  · intro hall x hx
    by_contra hne
    exact hall x (mem_deleteClient.mpr ⟨hx, hne⟩)
  · intro hall x hx
    have := mem_deleteClient.mp hx
    exact this.2 (hall x this.1)

theorem unregister_not_member (h : Hub) (C : Client) (habs : C ∉ h.members C.UserID) :
    step h (.unregister C) = .ok h := by
  simp only [step, unregister]
  cases hc : h.clients C.UserID with
  | none => rfl
  | some clients =>
    rw [members_of_some hc] at habs
    simp [habs]

/-- The unregister case on a member whose channel is open. -/
theorem unregister_open (h : Hub) (C : Client) (clients : List Client)
    (hc : h.clients C.UserID = some clients) (hmem : C ∈ clients)
    (hopen : (h.send C).closed = false) :
    step h (.unregister C) = .ok
      { clients := Function.update h.clients C.UserID
          (if (deleteClient clients C).length = 0 then none else some (deleteClient clients C)),
        send := Function.update h.send C { h.send C with closed := true } } := by
  simp only [step, unregister, hc, hmem, if_true, close_open _ hopen]
  by_cases hlen : (deleteClient clients C).length = 0
  · simp [hlen]
  · simp [hlen]

/-- The unregister case on a member whose channel is already closed. -/
theorem unregister_closed (h : Hub) (C : Client) (clients : List Client)
    (hc : h.clients C.UserID = some clients) (hmem : C ∈ clients)
    (hcl : (h.send C).closed = true) :
    step h (.unregister C) = .panic
      { h with clients := Function.update h.clients C.UserID (some (deleteClient clients C)) } := by
  simp [step, unregister, hc, hmem, Chan.close, hcl]

/-- C9 (as amended): for every state in which connection `C` is a member of the
set stored under `C.UserID` and the channel of `C` is open, processing
Unregister(`C`) completes; afterwards `C` is no longer in that set, the channel
of `C` is closed (nothing else about it changed), the entry of the user is
removed iff `C` was the only member, every other connection keeps its channel
and its membership, and the entry of every other user is unchanged. -/
theorem unregister_member (h : Hub) (C : Client) (hmem : C ∈ h.members C.UserID)
    (hopen : (h.send C).closed = false) :
    ∃ h1, step h (.unregister C) = .ok h1 ∧
      C ∉ h1.members C.UserID ∧
      h1.send C = { h.send C with closed := true } ∧
      (h1.clients C.UserID = none ↔ ∀ x ∈ h.members C.UserID, x = C) ∧
      (∀ x, x ≠ C → h1.send x = h.send x ∧
        (x ∈ h1.members C.UserID ↔ x ∈ h.members C.UserID)) ∧
      (∀ u, u ≠ C.UserID → h1.clients u = h.clients u) := by
  cases hc : h.clients C.UserID with
  | none =>
    rw [members_of_none hc] at hmem
    cases hmem
  | some clients =>
    rw [members_of_some hc] at hmem
    rw [members_of_some hc]
    refine ⟨_, unregister_open h C clients hc hmem hopen, ?_, ?_, ?_, ?_, ?_⟩
    · by_cases hlen : (deleteClient clients C).length = 0
      · simp [Hub.members, hlen]
      · simp only [Hub.members, hlen, if_false, Function.update_same]
        intro hin
        exact (mem_deleteClient.mp hin).2 rfl
    · simp
    · by_cases hlen : (deleteClient clients C).length = 0
      · simp only [hlen, if_true, Function.update_same, true_iff]
        exact deleteClient_length_zero.mp hlen
      · simp only [hlen, if_false, Function.update_same]
        exact ⟨fun hcon => (by cases hcon),
          fun hall => absurd (deleteClient_length_zero.mpr hall) hlen⟩
    · intro x hx
      refine ⟨by simp only [Function.update_noteq hx], ?_⟩
      by_cases hlen : (deleteClient clients C).length = 0
      · simp only [Hub.members, hlen, if_true, Function.update_same]
        constructor
        · intro hin
          cases hin
        · intro hin
          exact absurd (deleteClient_length_zero.mp hlen x hin) hx
      · simp only [Hub.members, hlen, if_false, Function.update_same]
        rw [mem_deleteClient]
        exact ⟨fun hin => hin.1, fun hin => ⟨hin, hx⟩⟩
    · intro u hu
      simp only [Function.update_noteq hu]

/-- Witness of `unregister_member`: the first connection of user 3 in `idleHub`. -/
theorem unregister_member_witness :
    ∃ h1, step idleHub (.unregister ⟨0, 3⟩) = .ok h1 ∧
      (⟨0, 3⟩ : Client) ∉ h1.members (Client.mk 0 3).UserID ∧
      h1.send ⟨0, 3⟩ = { idleHub.send ⟨0, 3⟩ with closed := true } ∧
      (h1.clients (Client.mk 0 3).UserID = none ↔
        ∀ x ∈ idleHub.members (Client.mk 0 3).UserID, x = ⟨0, 3⟩) ∧
      (∀ x, x ≠ (⟨0, 3⟩ : Client) → h1.send x = idleHub.send x ∧
        (x ∈ h1.members (Client.mk 0 3).UserID ↔ x ∈ idleHub.members (Client.mk 0 3).UserID)) ∧
      (∀ u, u ≠ (Client.mk 0 3).UserID → h1.clients u = idleHub.clients u) :=
  unregister_member idleHub ⟨0, 3⟩ (by decide) (by decide)

/-- C9, counterexample: in `reusedHub` the client `⟨0, 7⟩` is the only member of
the set of user 7 and its channel is already closed.  Unregister panics at
`close`, after the deletion from the set and before the pruning: the step does
not complete and user 7 is left mapped to an empty set. -/
theorem unregister_member_counterexample :
    reusedHub.clients 7 = some [⟨0, 7⟩] ∧
      (step reusedHub (.unregister ⟨0, 7⟩)).isOk = false ∧
      (step reusedHub (.unregister ⟨0, 7⟩)).state.clients 7 = some [] := by
  decide

/-- C10: for every state and connection `C` that is not a member of the set
stored under `C.UserID`, processing Unregister(`C`) completes and leaves the
entire state unchanged (the channel of `C` is not closed); and in every state,
Unregister(`C`) followed by Unregister(`C`) ends as a single Unregister(`C`). -/
theorem unregister_absent_noop (h : Hub) (C : Client) :
    (C ∉ h.members C.UserID → step h (.unregister C) = .ok h) ∧
    run h [.unregister C, .unregister C] = run h [.unregister C] := by
  refine ⟨unregister_not_member h C, ?_⟩
  by_cases habs : C ∈ h.members C.UserID
  · cases hc : h.clients C.UserID with
    | none =>
      rw [members_of_none hc] at habs
      cases habs
    | some clients =>
      rw [members_of_some hc] at habs
      cases hcl : (h.send C).closed with
      | true =>
        rw [run_cons_panic _ (unregister_closed h C clients hc habs hcl),
          run_cons_panic _ (unregister_closed h C clients hc habs hcl)]
      | false =>
        have hs := unregister_open h C clients hc habs hcl
        rw [run_cons_ok _ hs, run_cons_ok _ hs]
        have hgone : C ∉ Hub.members
            { clients := Function.update h.clients C.UserID
                (if (deleteClient clients C).length = 0 then none
                 else some (deleteClient clients C)),
              send := Function.update h.send C { h.send C with closed := true } } C.UserID := by
          by_cases hlen : (deleteClient clients C).length = 0
          · simp [Hub.members, hlen]
          · simp only [Hub.members, hlen, if_false, Function.update_same]
            intro hin
            exact (mem_deleteClient.mp hin).2 rfl
        rw [run_cons_ok _ (unregister_not_member _ C hgone)]
  · rw [run_cons_ok _ (unregister_not_member h C habs)]

/-- Witness of `unregister_absent_noop`: a connection of user 3 that was never
registered in `idleHub`. -/
theorem unregister_absent_noop_witness :
    (⟨9, 3⟩ : Client) ∉ idleHub.members (Client.mk 9 3).UserID ∧
      step idleHub (.unregister ⟨9, 3⟩) = .ok idleHub :=
  ⟨by decide, (unregister_absent_noop idleHub ⟨9, 3⟩).1 (by decide)⟩

/-! ## Per-connection FIFO -/

theorem broadcast_ok_open (h g : Hub) (U : UUID) (p : Bytes) (clients : List Client)
    (hc : h.clients U = some clients) (hnd : clients.Nodup)
    (hs : step h (.broadcast ⟨U, p⟩) = .ok g) : ∀ c ∈ clients, (h.send c).closed = false := by
  intro c hcm
  cases hcl : (h.send c).closed with
  | false => rfl
  | true =>
    have hbad := broadcastLoop_closed p clients clients h.send hnd ⟨c, hcm, hcl⟩
    simp only [step, broadcast, hc] at hs
    cases hl : broadcastLoop p clients clients h.send with
    | ok r =>
      rw [hl] at hbad
      cases hbad
    | panic r =>
      rw [hl] at hs
      cases hs

theorem unregister_frame (h g : Hub) (c : Client) (hs : step h (.unregister c) = .ok g) :
    ∀ x, x ≠ c → g.send x = h.send x := by
  intro x hx
  simp only [step, unregister] at hs
  cases hc : h.clients c.UserID with
  | none =>
    simp only [hc, Outcome.ok.injEq] at hs
    rw [← hs]
  | some clients =>
    simp only [hc] at hs
    by_cases hm : c ∈ clients
    · simp only [hm, if_true] at hs
      cases hcl : (h.send c).close with
      | none =>
        simp only [hcl] at hs
        cases hs
      | some ch =>
        simp only [hcl] at hs
        by_cases hlen : (deleteClient clients c).length = 0
        · simp only [hlen, if_true, Outcome.ok.injEq] at hs
          rw [← hs]
          simp only [Function.update_noteq hx]
        · simp only [hlen, if_false, Outcome.ok.injEq] at hs
          rw [← hs]
          simp only [Function.update_noteq hx]
    · simp only [hm, if_false, Outcome.ok.injEq] at hs
      rw [← hs]

theorem unregister_removes (h g : Hub) (c : Client) (hs : step h (.unregister c) = .ok g) :
    c ∉ g.members c.UserID := by
  by_cases hm : c ∈ h.members c.UserID
  · cases hc : h.clients c.UserID with
    | none =>
      rw [members_of_none hc] at hm
      cases hm
    | some clients =>
      rw [members_of_some hc] at hm
      cases hcl : (h.send c).closed with
      | true =>
        rw [unregister_closed h c clients hc hm hcl] at hs
        cases hs
      | false =>
        rw [unregister_open h c clients hc hm hcl] at hs
        simp only [Outcome.ok.injEq] at hs
        rw [← hs]
        by_cases hlen : (deleteClient clients c).length = 0
        · simp [Hub.members, hlen]
        · simp only [Hub.members, hlen, if_false, Function.update_same]
          intro hin
          exact (mem_deleteClient.mp hin).2 rfl
  · rw [unregister_not_member h c hm] at hs
    simp only [Outcome.ok.injEq] at hs
    exact hs ▸ hm

theorem payloadsFor_cons (U : UUID) (cmd : Cmd) (rest : List Cmd) :
    payloadsFor U (cmd :: rest) = payloadsFor U [cmd] ++ payloadsFor U rest := by
  cases cmd with
  | broadcast m =>
    by_cases hu : m.UserID = U
    · simp [payloadsFor, hu]
    · simp [payloadsFor, hu]
  | register c => simp [payloadsFor]
  | unregister c => simp [payloadsFor]
  | recv c => simp [payloadsFor]

/-- What one completed step does to the channel of a connection that is a member
before and after it: the writer may have taken items from the head, and exactly
the payload of a broadcast to its user was appended at the tail. -/
theorem step_chan (g g1 : Hub) (cmd : Cmd) (C : Client) (hwf : g.WF) (hk : g.Keyed)
    (hmem : C ∈ g.members C.UserID) (hs : step g cmd = .ok g1)
    (hmem1 : C ∈ g1.members C.UserID) :
    ∃ out, (g1.send C).recvd = (g.send C).recvd ++ out ∧
      out ++ (g1.send C).buf = (g.send C).buf ++ payloadsFor C.UserID [cmd] := by
  cases cmd with
  | register c =>
    simp only [step, register, Outcome.ok.injEq] at hs
    subst hs
    exact ⟨[], by simp [payloadsFor]⟩
  | unregister c =>
    by_cases hcC : C = c
    · subst hcC
      exact absurd hmem1 (unregister_removes g g1 C hs)
    · rw [unregister_frame g g1 c hs C hcC]
      exact ⟨[], by simp [payloadsFor]⟩
  | recv c =>
    simp only [step, Outcome.ok.injEq] at hs
    subst hs
    by_cases hcC : C = c
    · subst hcC
      simp only [Function.update_same, Chan.recv]
      cases hb : (g.send C).buf with
      | nil => exact ⟨[], by simp [payloadsFor, hb]⟩
      | cons v rest => exact ⟨[v], by simp [payloadsFor]⟩
    · simp only [Function.update_noteq hcC]
      exact ⟨[], by simp [payloadsFor]⟩
  | broadcast m =>
    obtain ⟨U, p⟩ := m
    by_cases hu : U = C.UserID
    · subst hu
      cases hc : g.clients C.UserID with
      | none =>
        rw [members_of_none hc] at hmem
        cases hmem
      | some clients =>
        rw [members_of_some hc] at hmem
        have hnd := hwf _ clients hc
        have hopen := broadcast_ok_open g g1 _ p clients hc hnd hs
        have hs1 := broadcast_open g _ p clients hc hnd hopen
        simp only [step] at hs
        rw [hs1] at hs
        simp only [Outcome.ok.injEq] at hs
        subst hs
        simp only [Hub.members, Function.update_same] at hmem1
        have hfree : (g.send C).full = false := (mem_survivors.mp hmem1).2 hmem
        refine ⟨[], ?_⟩
        simp [delivered, hmem, Chan.deliver, hfree, payloadsFor]
    · have hnot : C ∉ g.members U := by
        intro hin
        cases hc : g.clients U with
        | none =>
          rw [members_of_none hc] at hin
          cases hin
        | some clients =>
          rw [members_of_some hc] at hin
          exact hu (hk U clients hc C hin).symm
      have hfr := (broadcast_frame g U p).2 C hnot
      rw [hs] at hfr
      simp only [Outcome.state] at hfr
      rw [hfr]
      exact ⟨[], by simp [payloadsFor, hu]⟩

/-- From any state: while a connection stays a member of its user's set, the
items taken from its queue followed by the items still in it are the old queue
contents followed by the payloads broadcast to its user, in order. -/
theorem fifo_from (C : Client) :
    ∀ (post : List Cmd) (g h : Hub), g.WF → g.Keyed →
      (∀ k, C ∈ (run g (post.take k)).state.members C.UserID) →
      run g post = .ok h →
      ∃ out, (h.send C).recvd = (g.send C).recvd ++ out ∧
        out ++ (h.send C).buf = (g.send C).buf ++ payloadsFor C.UserID post := by
  intro post
  induction post with
  | nil =>
    intro g h _ _ _ hrun
    simp only [run, Outcome.ok.injEq] at hrun
    subst hrun
    exact ⟨[], by simp [payloadsFor]⟩
  | cons cmd rest ih =>
    intro g h hwf hk hstay hrun
    have hmem : C ∈ g.members C.UserID := by
      simpa [run, Outcome.state] using hstay 0
    cases hs : step g cmd with
    | panic g1 =>
      rw [run_cons_panic rest hs] at hrun
      cases hrun
    | ok g1 =>
      rw [run_cons_ok rest hs] at hrun
      have hstay1 : ∀ k, C ∈ (run g1 (rest.take k)).state.members C.UserID := by
        intro k
        have := hstay (k + 1)
        rw [List.take_succ_cons, run_cons_ok _ hs] at this
        exact this
      have hmem1 : C ∈ g1.members C.UserID := by
        simpa [run, Outcome.state] using hstay1 0
      have hwf1 : g1.WF := by
        have := step_WF g cmd hwf
        rw [hs] at this
        exact this
      have hk1 : g1.Keyed := by
        have := step_Keyed g cmd hk
        rw [hs] at this
        exact this
      obtain ⟨o, ho1, ho2⟩ := step_chan g g1 cmd C hwf hk hmem hs hmem1
      obtain ⟨out, hout1, hout2⟩ := ih g1 h hwf1 hk1 hstay1 hrun
      refine ⟨o ++ out, ?_, ?_⟩
      · rw [hout1, ho1, List.append_assoc]
      · rw [List.append_assoc, hout2, ← List.append_assoc, ho2, payloadsFor_cons C.UserID cmd rest,
          List.append_assoc]

/-! ## No dangling reference -/

theorem trySend_sent_open {ch ch1 : Chan} {v : Bytes} (hts : ch.trySend v = .sent ch1) :
    ch.closed = false ∧ ch1.closed = false ∧ ch.full = false ∧
      ch1 = { ch with buf := ch.buf ++ [v] } := by
  unfold Chan.trySend at hts
  cases hc : ch.closed with
  | true => simp [hc] at hts
  | false =>
    by_cases hlt : ch.buf.length < ch.cap
    · simp only [hc, hlt, if_true, Bool.false_eq_true, if_false, TrySend.sent.injEq] at hts
      subst hts
      refine ⟨rfl, rfl, ?_, ?_⟩
      · simp [Chan.full, hlt]
      · simp [hc]
    · simp [hc, hlt] at hts

theorem trySend_wouldBlock_open {ch : Chan} {v : Bytes} (hts : ch.trySend v = .wouldBlock) :
    ch.closed = false ∧ ch.full = true := by
  unfold Chan.trySend at hts
  cases hc : ch.closed with
  | true => simp [hc] at hts
  | false =>
    by_cases hlt : ch.buf.length < ch.cap
    · simp [hc, hlt] at hts
    · refine ⟨rfl, ?_⟩
      simp only [Chan.full, decide_eq_true_eq]
      omega

/-- A connection whose channel the broadcast loop closed is not in the inner map
the loop leaves, whether the loop completes or not. -/
theorem broadcastLoop_evicted (payload : Bytes) (C : Client) :
    ∀ (visited clients : List Client) (send : Client → Chan), (send C).closed = false →
      ((broadcastLoop payload visited clients send).state.2 C).closed = true →
      C ∉ (broadcastLoop payload visited clients send).state.1 := by
  intro visited
  induction visited with
  | nil =>
    intro clients send hopen hclosed
    simp only [broadcastLoop, Outcome.state] at hclosed
    rw [hopen] at hclosed
    cases hclosed
  | cons c rest ih =>
    intro clients send hopen
    rw [broadcastLoop]
    cases hts : (send c).trySend payload with
    | panic =>
      intro hclosed
      simp only [Outcome.state] at hclosed
      rw [hopen] at hclosed
      cases hclosed
    | sent ch =>
      simp only
      apply ih
      by_cases hcC : C = c
      · subst hcC
        rw [Function.update_same]
        exact (trySend_sent_open hts).2.1
      · rw [Function.update_noteq hcC]
        exact hopen
    | wouldBlock =>
      simp only
      rw [close_open _ (trySend_wouldBlock_open hts).1]
      simp only
      by_cases hcC : C = c
      · subst hcC
        intro _ hin
        have hsub := (broadcastLoop_frame payload rest (deleteClient clients C)
          (Function.update send C { send C with closed := true })).2
        exact (mem_deleteClient.mp (hsub.subset hin)).2 rfl
      · apply ih
        rw [Function.update_noteq hcC]
        exact hopen

/-- After the unregister case the connection is not in the set of its user,
whether the step completes or not. -/
theorem unregister_state_removes (h : Hub) (C : Client) :
    C ∉ (step h (.unregister C)).state.members C.UserID := by
  by_cases hm : C ∈ h.members C.UserID
  · cases hc : h.clients C.UserID with
    | none =>
      rw [members_of_none hc] at hm
      cases hm
    | some clients =>
      rw [members_of_some hc] at hm
      cases hcl : (h.send C).closed with
      | true =>
        rw [unregister_closed h C clients hc hm hcl]
        simp only [Outcome.state, Hub.members, Function.update_same]
        intro hin
        exact (mem_deleteClient.mp hin).2 rfl
      | false =>
        cases hs : step h (.unregister C) with
        | ok g => exact unregister_removes h g C hs
        | panic g =>
          rw [unregister_open h C clients hc hm hcl] at hs
          cases hs
  · rw [unregister_not_member h C hm]
    exact hm

theorem mem_members_keyed {h : Hub} (hk : h.Keyed) {u : UUID} {c : Client}
    (hin : c ∈ h.members u) : c.UserID = u := by
  cases hc : h.clients u with
  | none =>
    rw [members_of_none hc] at hin
    cases hin
  | some clients =>
    rw [members_of_some hc] at hin
    exact hk u clients hc c hin

/-- C11: for every state reachable from the empty registry and every connection
`C`: in the state Unregister(`C`) leaves, `C` is a member of no user's set; and
whenever a broadcast evicts `C` (the channel of `C` was open before the step and
is closed after it), `C` is a member of no user's set in the state the broadcast
leaves. -/
theorem no_dangling_reference (send : Client → Chan) (cmds : List Cmd) (h : Hub) (C : Client)
    (hreach : run (NewHub send) cmds = .ok h) :
    (∀ u, C ∉ (step h (.unregister C)).state.members u) ∧
    (∀ U p, (h.send C).closed = false →
      ((step h (.broadcast ⟨U, p⟩)).state.send C).closed = true →
      ∀ u, C ∉ (step h (.broadcast ⟨U, p⟩)).state.members u) := by
  have hk : h.Keyed := by
    have := run_Keyed send cmds
    rw [hreach] at this
    exact this
  constructor
  · intro u hin
    have hu := mem_members_keyed (step_Keyed h (.unregister C) hk) hin
    subst hu
    exact unregister_state_removes h C hin
  · intro U p hopen hclosed u hin
    have hu := mem_members_keyed (step_Keyed h (.broadcast ⟨U, p⟩) hk) hin
    subst hu
    have hCU : C ∈ h.members U := by
      by_contra hnot
      rw [(broadcast_frame h U p).2 C hnot, hopen] at hclosed
      cases hclosed
    have hUeq : C.UserID = U := mem_members_keyed hk hCU
    subst hUeq
    cases hc : h.clients C.UserID with
    | none =>
      rw [members_of_none hc] at hCU
      cases hCU
    | some clients =>
      have hev := broadcastLoop_evicted p C clients clients h.send hopen
      simp only [step, broadcast, hc] at hclosed hin
      cases hl : broadcastLoop p clients clients h.send with
      | ok r =>
        rw [hl] at hclosed hin hev
        simp only [Outcome.state, Hub.members, Function.update_same] at hclosed hin hev
        exact hev hclosed hin
      | panic r =>
        rw [hl] at hclosed hin hev
        simp only [Outcome.state, Hub.members, Function.update_same] at hclosed hin hev
        exact hev hclosed hin

/-- Witness of `no_dangling_reference`: the connection `⟨0, 7⟩` of
`twoClientHub`, whose queue is full, is unregistered, or evicted by a broadcast
to user 7. -/
theorem no_dangling_reference_witness :
    (⟨0, 7⟩ : Client) ∉ (step twoClientHub (.unregister ⟨0, 7⟩)).state.members 7 ∧
    (⟨0, 7⟩ : Client) ∉ (step twoClientHub (.broadcast ⟨7, [2]⟩)).state.members 7 :=
  ⟨(no_dangling_reference (fun _ => Chan.make 1)
      [.register ⟨0, 7⟩, .broadcast ⟨7, [1]⟩, .register ⟨1, 7⟩, .recv ⟨1, 7⟩, .register ⟨5, 8⟩]
      twoClientHub ⟨0, 7⟩ rfl).1 7,
   (no_dangling_reference (fun _ => Chan.make 1)
      [.register ⟨0, 7⟩, .broadcast ⟨7, [1]⟩, .register ⟨1, 7⟩, .recv ⟨1, 7⟩, .register ⟨5, 8⟩]
      twoClientHub ⟨0, 7⟩ rfl).2 7 [2] (by decide) (by decide) 7⟩

/-! ## Publishing -/

/-- C12 (as amended): for every user and every event whose JSON serialization
fails, `SendToUser` returns to its caller at once (it is not parked on the
command channel) and hands back nothing: the method has no result, the value
the caller gets is `()`, whatever the error was. -/
theorem sendToUser_failure_silent (marshal : Event → Except String Bytes) (s : System)
    (u : UUID) (e : Event) (err : String) (hfail : marshal e = .error err) :
    ∃ s1, SendToUser marshal s u e = .returned () s1 := by
  refine ⟨s, ?_⟩
  simp [SendToUser, hfail]

/-- Witness of `sendToUser_failure_silent`: an event whose payload cannot be
encoded. -/
theorem sendToUser_failure_silent_witness :
    ∃ s1, SendToUser (Marshal fun _ => [0]) freshSystem 7 ⟨"story.viewed", .unsupported⟩
      = .returned () s1 :=
  sendToUser_failure_silent (Marshal fun _ => [0]) freshSystem 7 ⟨"story.viewed", .unsupported⟩
    "json: unsupported type" rfl

/-- C12, counterexample: the serialization of an event with a payload of an
unsupported type fails, and `SendToUser` returns the same empty result `()` as
for an event that is serialized and enqueued: no error reaches the caller. -/
theorem sendToUser_failure_silent_counterexample :
    Marshal (fun _ => [0]) ⟨"story.viewed", .unsupported⟩ = .error "json: unsupported type" ∧
      SendToUser (Marshal fun _ => [0]) freshSystem 7 ⟨"story.viewed", .unsupported⟩
        = .returned () freshSystem ∧
      SendToUser (Marshal fun _ => [0]) freshSystem 7 ⟨"story.viewed", .nil⟩
        = .returned () { freshSystem with broadcast := [⟨7, [0]⟩] } := by
  refine ⟨rfl, rfl, rfl⟩

/-- C13: for every user and every event whose JSON serialization fails,
`SendToUser` leaves the whole system as it was: no message is placed on the
command channel, and the registry (mapping and connection queues) is unchanged. -/
theorem sendToUser_failure_no_enqueue (marshal : Event → Except String Bytes) (s : System)
    (u : UUID) (e : Event) (err : String) (hfail : marshal e = .error err) :
    (SendToUser marshal s u e).state = s ∧
      (SendToUser marshal s u e).state.broadcast = s.broadcast ∧
      (SendToUser marshal s u e).state.hub = s.hub := by
  simp [SendToUser, hfail, Call.state]

/-- Witness of `sendToUser_failure_no_enqueue`: an event whose payload cannot be
encoded, published while one message is waiting on the command channel. -/
theorem sendToUser_failure_no_enqueue_witness :
    (SendToUser (Marshal fun _ => [0]) ⟨idleHub, [⟨3, [5]⟩]⟩ 3 ⟨"story.reacted", .unsupported⟩).state
        = ⟨idleHub, [⟨3, [5]⟩]⟩ ∧
      (SendToUser (Marshal fun _ => [0]) ⟨idleHub, [⟨3, [5]⟩]⟩ 3
        ⟨"story.reacted", .unsupported⟩).state.broadcast = [⟨3, [5]⟩] ∧
      (SendToUser (Marshal fun _ => [0]) ⟨idleHub, [⟨3, [5]⟩]⟩ 3
        ⟨"story.reacted", .unsupported⟩).state.hub = idleHub :=
  sendToUser_failure_no_enqueue (Marshal fun _ => [0]) ⟨idleHub, [⟨3, [5]⟩]⟩ 3
    ⟨"story.reacted", .unsupported⟩ "json: unsupported type" rfl

/-- C14: for every user `u` and every event whose JSON serialization succeeds
with bytes `b`, `SendToUser` appends exactly one message at the tail of the
command channel, with `UserID = u` and `Payload = b`, and leaves the registry
(mapping and connection queues) untouched; with a free slot in the channel's
buffer the call returns at once. -/
theorem sendToUser_success (marshal : Event → Except String Bytes) (s : System)
    (u : UUID) (e : Event) (b : Bytes) (hok : marshal e = .ok b) :
    (SendToUser marshal s u e).state.broadcast = s.broadcast ++ [⟨u, b⟩] ∧
      (SendToUser marshal s u e).state.hub = s.hub ∧
      (s.broadcast.length < broadcastCap →
        SendToUser marshal s u e
          = .returned () { hub := s.hub, broadcast := s.broadcast ++ [⟨u, b⟩] }) := by
  by_cases hlt : s.broadcast.length < broadcastCap
  · simp [SendToUser, hok, Call.state, hlt]
  · simp [SendToUser, hok, Call.state, hlt]

/-- Witness of `sendToUser_success`: an event with a nil payload published to
user 3 while one message is waiting on the command channel. -/
theorem sendToUser_success_witness :
    (SendToUser (Marshal fun _ => [0]) ⟨idleHub, [⟨3, [5]⟩]⟩ 3 ⟨"story.viewed", .nil⟩).state.broadcast
        = [⟨3, [5]⟩] ++ [⟨3, [0]⟩] ∧
      (SendToUser (Marshal fun _ => [0]) ⟨idleHub, [⟨3, [5]⟩]⟩ 3 ⟨"story.viewed", .nil⟩).state.hub
        = idleHub ∧
      SendToUser (Marshal fun _ => [0]) ⟨idleHub, [⟨3, [5]⟩]⟩ 3 ⟨"story.viewed", .nil⟩
        = .returned () { hub := idleHub, broadcast := [⟨3, [5]⟩] ++ [⟨3, [0]⟩] } :=
  ⟨(sendToUser_success (Marshal fun _ => [0]) ⟨idleHub, [⟨3, [5]⟩]⟩ 3 ⟨"story.viewed", .nil⟩ [0]
      rfl).1,
   (sendToUser_success (Marshal fun _ => [0]) ⟨idleHub, [⟨3, [5]⟩]⟩ 3 ⟨"story.viewed", .nil⟩ [0]
      rfl).2.1,
   (sendToUser_success (Marshal fun _ => [0]) ⟨idleHub, [⟨3, [5]⟩]⟩ 3 ⟨"story.viewed", .nil⟩ [0]
      rfl).2.2 (by decide)⟩

theorem marshal_event (render : JSON → Bytes) (t : String) (p : GoValue) (j : JSON)
    (hp : jsonMarshal p = .ok j) :
    Marshal render ⟨t, p⟩ = .ok (render (.obj [("type", .str t), ("payload", j)])) := by
  simp [Marshal, Event.toGo, jsonMarshal, marshalFields, hp]

/-- What `SendToUser` enqueues for an event whose payload can be encoded. -/
theorem sendToUser_wire (render : JSON → Bytes) (s : System) (u : UUID) (t : String)
    (p : GoValue) (j : JSON) (hp : jsonMarshal p = .ok j) :
    (SendToUser (Marshal render) s u ⟨t, p⟩).state.broadcast
      = s.broadcast ++ [⟨u, render (.obj [("type", .str t), ("payload", j)])⟩] := by
  have hm := marshal_event render t p j hp
  by_cases hlt : s.broadcast.length < broadcastCap
  · simp [SendToUser, hm, Call.state, hlt]
  · simp [SendToUser, hm, Call.state, hlt]

/-- C15: for every `Event` with type tag `t` and a payload `p` that is encoded
as the JSON value `j`, what `json.Marshal` yields in `SendToUser`, and what
`SendToUser` puts on the command channel as the payload to deliver, is the
rendering of the JSON object with exactly the two members `"type"` (the string
`t`) and `"payload"` (the value `j`); for a `ViewEvent` payload `j` is an object
with exactly the members `story_id`, `viewer_id`, `viewed_at`, and for a
`ReactionEvent` payload an object with exactly the members `story_id`,
`user_id`, `emoji`. -/
theorem wire_format (render : JSON → Bytes) (s : System) (u : UUID) (t : String) (p : GoValue)
    (j : JSON) (v : ViewEvent) (r : ReactionEvent) (hp : jsonMarshal p = .ok j) :
    (Marshal render ⟨t, p⟩ = .ok (render (.obj [("type", .str t), ("payload", j)])) ∧
      (JSON.obj [("type", .str t), ("payload", j)]).memberNames = ["type", "payload"] ∧
      (SendToUser (Marshal render) s u ⟨t, p⟩).state.broadcast
        = s.broadcast ++ [⟨u, render (.obj [("type", .str t), ("payload", j)])⟩]) ∧
    (∃ jv, jsonMarshal v.toGo = .ok jv ∧
      jv.memberNames = ["story_id", "viewer_id", "viewed_at"] ∧
      (SendToUser (Marshal render) s u ⟨t, v.toGo⟩).state.broadcast
        = s.broadcast ++ [⟨u, render (.obj [("type", .str t), ("payload", jv)])⟩]) ∧
    (∃ jr, jsonMarshal r.toGo = .ok jr ∧
      jr.memberNames = ["story_id", "user_id", "emoji"] ∧
      (SendToUser (Marshal render) s u ⟨t, r.toGo⟩).state.broadcast
        = s.broadcast ++ [⟨u, render (.obj [("type", .str t), ("payload", jr)])⟩]) :=
  ⟨⟨marshal_event render t p j hp, rfl, sendToUser_wire render s u t p j hp⟩,
   ⟨_, rfl, rfl, sendToUser_wire render s u t v.toGo _ rfl⟩,
   ⟨_, rfl, rfl, sendToUser_wire render s u t r.toGo _ rfl⟩⟩

/-- Witness of `wire_format`: a view event and a reaction event published to
user 3 on a fresh system. -/
theorem wire_format_witness :
    (Marshal nameLengths ⟨"story.viewed", .string "x"⟩
        = .ok (nameLengths (.obj [("type", .str "story.viewed"), ("payload", .str "x")])) ∧
      (JSON.obj [("type", .str "story.viewed"), ("payload", .str "x")]).memberNames
        = ["type", "payload"] ∧
      (SendToUser (Marshal nameLengths) freshSystem 3 ⟨"story.viewed", .string "x"⟩).state.broadcast
        = freshSystem.broadcast
          ++ [⟨3, nameLengths (.obj [("type", .str "story.viewed"), ("payload", .str "x")])⟩]) ∧
    (∃ jv, jsonMarshal (ViewEvent.toGo ⟨1, 2, "2024-01-01T00:00:00Z"⟩) = .ok jv ∧
      jv.memberNames = ["story_id", "viewer_id", "viewed_at"] ∧
      (SendToUser (Marshal nameLengths) freshSystem 3
          ⟨"story.viewed", ViewEvent.toGo ⟨1, 2, "2024-01-01T00:00:00Z"⟩⟩).state.broadcast
        = freshSystem.broadcast
          ++ [⟨3, nameLengths (.obj [("type", .str "story.viewed"), ("payload", jv)])⟩]) ∧
    (∃ jr, jsonMarshal (ReactionEvent.toGo ⟨1, 2, "+1"⟩) = .ok jr ∧
      jr.memberNames = ["story_id", "user_id", "emoji"] ∧
      (SendToUser (Marshal nameLengths) freshSystem 3
          ⟨"story.viewed", ReactionEvent.toGo ⟨1, 2, "+1"⟩⟩).state.broadcast
        = freshSystem.broadcast
          ++ [⟨3, nameLengths (.obj [("type", .str "story.viewed"), ("payload", jr)])⟩]) :=
  wire_format nameLengths freshSystem 3 "story.viewed"
    (.string "x") (.str "x") ⟨1, 2, "2024-01-01T00:00:00Z"⟩ ⟨1, 2, "+1"⟩ rfl

/-! ## Eviction, races and reuse -/

/-- C16, the code at the failing input: user 7 has one connection, whose queue
of capacity 1 is full.  The broadcast to user 7 and the Unregister of each
connection of user 7 both complete and leave the channel of the connection in
the same state (closed, contents untouched), but the broadcast leaves user 7
mapped to an empty set while Unregister removes the entry. -/
theorem eviction_differs_from_unregister :
    fullHub.members 7 = [⟨0, 7⟩] ∧ (fullHub.send ⟨0, 7⟩).full = true ∧
      (step fullHub (.broadcast ⟨7, [2]⟩)).isOk = true ∧
      (run fullHub ((fullHub.members 7).map Cmd.unregister)).isOk = true ∧
      (step fullHub (.broadcast ⟨7, [2]⟩)).state.send ⟨0, 7⟩
        = (run fullHub ((fullHub.members 7).map Cmd.unregister)).state.send ⟨0, 7⟩ ∧
      (step fullHub (.broadcast ⟨7, [2]⟩)).state.clients 7 = some [] ∧
      (run fullHub ((fullHub.members 7).map Cmd.unregister)).state.clients 7 = none := by
  decide

theorem count_insertClient {clients : List Client} {C : Client} (hnot : C ∉ clients) :
    (insertClient clients C).count C = 1 := by
  simp [insertClient, hnot, List.count_eq_zero_of_not_mem hnot]

theorem members_update (f : UUID → Option (List Client)) (sd : Client → Chan) (u : UUID)
    (l : List Client) : Hub.members { clients := Function.update f u (some l), send := sd } u = l := by
  simp [Hub.members]

theorem register_step (h : Hub) (C : Client) :
    step h (.register C) = .ok
      { clients := Function.update h.clients C.UserID (some (insertClient (h.members C.UserID) C)),
        send := h.send } := by
  simp only [step, register, Hub.members]

/-- C17 (as amended): for every state reachable from the empty registry and
every connection `C` whose channel is open: Register(`C`) then Unregister(`C`)
completes and ends in a state where `C` is in no connection set, no empty set
is left for `C.UserID` and the channel of `C` is closed; Unregister(`C`) then
Register(`C`) completes and ends in a state where `C` is a member of the set
stored under `C.UserID`, exactly once, and of no other set, and there `C` is
registered with a closed channel exactly when `C` was a member before. -/
theorem register_unregister_race (send : Client → Chan) (cmds : List Cmd) (h : Hub) (C : Client)
    (hreach : run (NewHub send) cmds = .ok h) (hopen : (h.send C).closed = false) :
    (∃ h2, run h [.register C, .unregister C] = .ok h2 ∧
      (∀ u, C ∉ h2.members u) ∧ h2.clients C.UserID ≠ some [] ∧ (h2.send C).closed = true) ∧
    (∃ h2, run h [.unregister C, .register C] = .ok h2 ∧
      (h2.members C.UserID).count C = 1 ∧ (∀ u, u ≠ C.UserID → C ∉ h2.members u) ∧
      ((h2.send C).closed = true ↔ C ∈ h.members C.UserID)) := by
  have hk : h.Keyed := by
    have := run_Keyed send cmds
    rw [hreach] at this
    exact this
  have hkrun : ∀ cs h2, run h cs = .ok h2 → h2.Keyed := by
    intro cs h2 hr
    have := run_invariant Hub.Keyed step_Keyed cs h hk
    rw [hr] at this
    exact this
  constructor
  · have hreg := register_step h C
    have hs := unregister_open
      { clients := Function.update h.clients C.UserID (some (insertClient (h.members C.UserID) C)),
        send := h.send } C
      (insertClient (h.members C.UserID) C) (by simp) (mem_insertClient.mpr (Or.inl rfl)) hopen
    have hrun := (run_cons_ok [.unregister C] hreg).trans (run_cons_ok [] hs)
    refine ⟨_, hrun, ?_, ?_, ?_⟩
    · intro u hin
      have hu := mem_members_keyed (hkrun _ _ hrun) hin
      subst hu
      exact unregister_removes _ _ C hs hin
    · by_cases hlen : (deleteClient (insertClient (h.members C.UserID) C) C).length = 0
      · simp [hlen]
      · simp only [hlen, if_false, Function.update_same, ne_eq, Option.some.injEq]
        exact deleteClient_ne_nil hlen
    · simp
  · by_cases hm : C ∈ h.members C.UserID
    · cases hc : h.clients C.UserID with
      | none =>
        rw [members_of_none hc] at hm
        cases hm
      | some clients =>
        rw [members_of_some hc] at hm
        have hs := unregister_open h C clients hc hm hopen
        have hreg := register_step
          { clients := Function.update h.clients C.UserID
              (if (deleteClient clients C).length = 0 then none
               else some (deleteClient clients C)),
            send := Function.update h.send C { h.send C with closed := true } } C
        have hrun := (run_cons_ok [.register C] hs).trans (run_cons_ok [] hreg)
        have hgone := unregister_removes _ _ C hs
        refine ⟨_, hrun, ?_, ?_, ?_⟩
        · rw [members_update]
          exact count_insertClient hgone
        · intro u hu hin
          exact hu (mem_members_keyed (hkrun _ _ hrun) hin).symm
        · rw [members_of_some hc]
          simp [hm]
    · have hs := unregister_not_member h C hm
      have hreg := register_step h C
      have hrun := (run_cons_ok [.register C] hs).trans (run_cons_ok [] hreg)
      refine ⟨_, hrun, ?_, ?_, ?_⟩
      · rw [members_update]
        exact count_insertClient hm
      · intro u hu hin
        exact hu (mem_members_keyed (hkrun _ _ hrun) hin).symm
      · simp [hm, hopen]

/-- Witness of `register_unregister_race`: the first connection of user 3 in
`idleHub`, whose channel is open. -/
theorem register_unregister_race_witness :
    (∃ h2, run idleHub [.register ⟨0, 3⟩, .unregister ⟨0, 3⟩] = .ok h2 ∧
      (∀ u, (⟨0, 3⟩ : Client) ∉ h2.members u) ∧ h2.clients (Client.mk 0 3).UserID ≠ some [] ∧
      (h2.send ⟨0, 3⟩).closed = true) ∧
    (∃ h2, run idleHub [.unregister ⟨0, 3⟩, .register ⟨0, 3⟩] = .ok h2 ∧
      (h2.members (Client.mk 0 3).UserID).count ⟨0, 3⟩ = 1 ∧
      (∀ u, u ≠ (Client.mk 0 3).UserID → (⟨0, 3⟩ : Client) ∉ h2.members u) ∧
      ((h2.send ⟨0, 3⟩).closed = true ↔ (⟨0, 3⟩ : Client) ∈ idleHub.members (Client.mk 0 3).UserID)) :=
  register_unregister_race (fun _ => Chan.make 2)
    [.register ⟨0, 3⟩, .register ⟨1, 3⟩, .register ⟨2, 4⟩] idleHub ⟨0, 3⟩ rfl (by decide)

/-- C17, counterexample: in `idleHub` (reachable) the connection `⟨0, 3⟩` is
registered with an open channel; after Unregister then Register it is a member
of the set of user 3 with a closed channel, a dangling entry.  In `closedHub`
(reachable) the channel of `⟨0, 7⟩` is closed; Register then Unregister panics
and leaves user 7 mapped to an empty set. -/
theorem register_unregister_race_counterexample :
    (run idleHub [.unregister ⟨0, 3⟩, .register ⟨0, 3⟩]).isOk = true ∧
      (⟨0, 3⟩ : Client) ∈ (run idleHub [.unregister ⟨0, 3⟩, .register ⟨0, 3⟩]).state.members 3 ∧
      ((run idleHub [.unregister ⟨0, 3⟩, .register ⟨0, 3⟩]).state.send ⟨0, 3⟩).closed = true ∧
      (run closedHub [.register ⟨0, 7⟩, .unregister ⟨0, 7⟩]).isOk = false ∧
      (run closedHub [.register ⟨0, 7⟩, .unregister ⟨0, 7⟩]).state.clients 7 = some [] := by
  decide

/-- C20: for every connection `C` whose channel is open and every payload, the
commands Register(`C`), Unregister(`C`), Register(`C`) from the empty registry
complete and reach a state in which `C` is registered with a closed channel;
there the non-blocking send of the broadcast case panics, so the broadcast to
`C.UserID` does not complete, and `C` is still a member afterwards: it is not
evicted. -/
theorem register_reuse_panics (send : Client → Chan) (C : Client) (p : Bytes)
    (hopen : (send C).closed = false) :
    ∃ h, run (NewHub send) [.register C, .unregister C, .register C] = .ok h ∧
      C ∈ h.members C.UserID ∧ (h.send C).closed = true ∧
      (h.send C).trySend p = .panic ∧
      (step h (.broadcast ⟨C.UserID, p⟩)).isOk = false ∧
      C ∈ (step h (.broadcast ⟨C.UserID, p⟩)).state.members C.UserID := by
  have hrun : run (NewHub send) [.register C, .unregister C, .register C] = .ok
      { clients := Function.update (fun _ => none) C.UserID (some [C]),
        send := Function.update send C { send C with closed := true } } := by
    simp [run, step, register, unregister, NewHub, insertClient, deleteClient, Chan.close, hopen]
  refine ⟨_, hrun, ?_, ?_, ?_, ?_, ?_⟩
  · simp [Hub.members]
  · simp
  · simp [Chan.trySend]
  · simp [step, broadcast, broadcastLoop, Chan.trySend, Outcome.isOk]
  · simp [step, broadcast, broadcastLoop, Chan.trySend, Outcome.state, Hub.members]

/-- Witness of `register_reuse_panics`: the client `⟨0, 7⟩` with a fresh channel
of capacity 1. -/
theorem register_reuse_panics_witness :
    ∃ h, run (NewHub fun _ => Chan.make 1)
        [.register ⟨0, 7⟩, .unregister ⟨0, 7⟩, .register ⟨0, 7⟩] = .ok h ∧
      (⟨0, 7⟩ : Client) ∈ h.members (Client.mk 0 7).UserID ∧ (h.send ⟨0, 7⟩).closed = true ∧
      (h.send ⟨0, 7⟩).trySend [1] = .panic ∧
      (step h (.broadcast ⟨(Client.mk 0 7).UserID, [1]⟩)).isOk = false ∧
      (⟨0, 7⟩ : Client) ∈ (step h (.broadcast ⟨(Client.mk 0 7).UserID, [1]⟩)).state.members
        (Client.mk 0 7).UserID :=
  register_reuse_panics (fun _ => Chan.make 1) ⟨0, 7⟩ [1] rfl

/-! ## Closing a channel at most once -/

theorem broadcastCloses_sublist (payload : Bytes) :
    ∀ (visited : List Client) (send : Client → Chan),
      (broadcastCloses payload visited send).Sublist visited := by
  intro visited
  induction visited with
  | nil =>
    intro send
    exact List.Sublist.refl _
  | cons c rest ih =>
    intro send
    rw [broadcastCloses]
    cases hts : (send c).trySend payload with
    | panic => exact List.nil_sublist _
    | sent ch => exact (ih _).trans (List.sublist_cons_self _ _)
    | wouldBlock =>
      simp only
      rw [close_open _ (trySend_wouldBlock_open hts).1]
      exact (ih _).cons₂ c

/-- Every connection whose channel the loop closes is deleted from the inner
map, whether the loop completes or not. -/
theorem broadcastCloses_removed (payload : Bytes) :
    ∀ (visited clients : List Client) (send : Client → Chan),
      ∀ e ∈ broadcastCloses payload visited send,
        e ∉ (broadcastLoop payload visited clients send).state.1 := by
  intro visited
  induction visited with
  | nil =>
    intro clients send e he
    cases he
  | cons c rest ih =>
    intro clients send e
    rw [broadcastCloses, broadcastLoop]
    cases hts : (send c).trySend payload with
    | panic =>
      intro he
      cases he
    | sent ch => exact ih _ _ e
    | wouldBlock =>
      simp only
      rw [close_open _ (trySend_wouldBlock_open hts).1]
      simp only
      intro he hin
      rcases List.mem_cons.mp he with hec | her
      · subst hec
        have hsub := (broadcastLoop_frame payload rest (deleteClient clients e)
          (Function.update send e { send e with closed := true })).2
        exact (mem_deleteClient.mp (hsub.subset hin)).2 rfl
      · exact ih _ _ e her hin

/-- The loop changes the closed flag of no channel but those it closes. -/
theorem broadcastCloses_flag (payload : Bytes) (x : Client) :
    ∀ (visited clients : List Client) (send : Client → Chan),
      x ∉ broadcastCloses payload visited send →
      ((broadcastLoop payload visited clients send).state.2 x).closed = (send x).closed := by
  intro visited
  induction visited with
  | nil =>
    intro clients send _
    rfl
  | cons c rest ih =>
    intro clients send
    rw [broadcastCloses, broadcastLoop]
    cases hts : (send c).trySend payload with
    | panic =>
      intro _
      rfl
    | sent ch =>
      simp only
      intro hx
      rw [ih _ _ hx]
      by_cases hxc : x = c
      · subst hxc
        rw [Function.update_same, (trySend_sent_open hts).2.1, (trySend_sent_open hts).1]
      · rw [Function.update_noteq hxc]
    | wouldBlock =>
      simp only
      rw [close_open _ (trySend_wouldBlock_open hts).1]
      simp only
      intro hx
      have hxc : x ≠ c := fun hxe => hx (hxe ▸ List.mem_cons_self _ _)
      have hxr : x ∉ broadcastCloses payload rest
          (Function.update send c { send c with closed := true }) :=
        fun hin => hx (List.mem_cons_of_mem _ hin)
      rw [ih _ _ hxr, Function.update_noteq hxc]

/-- A step closes channels of members only. -/
theorem stepCloses_mem (h : Hub) (cmd : Cmd) :
    ∀ e ∈ stepCloses h cmd, ∃ u, e ∈ h.members u := by
  intro e he
  cases cmd with
  | register c => cases he
  | recv c => cases he
  | unregister c =>
    simp only [stepCloses] at he
    cases hc : h.clients c.UserID with
    | none =>
      rw [hc] at he
      cases he
    | some clients =>
      rw [hc] at he
      simp only at he
      by_cases hm : c ∈ clients
      · simp only [hm, if_true, List.mem_singleton] at he
        subst he
        exact ⟨e.UserID, by rw [members_of_some hc]; exact hm⟩
      · simp only [hm, if_false] at he
        cases he
  | broadcast m =>
    simp only [stepCloses] at he
    cases hc : h.clients m.UserID with
    | none =>
      rw [hc] at he
      cases he
    | some clients =>
      rw [hc] at he
      simp only at he
      exact ⟨m.UserID, by
        rw [members_of_some hc]
        exact (broadcastCloses_sublist m.Payload clients h.send).subset he⟩

theorem stepCloses_nodup (h : Hub) (cmd : Cmd) (hwf : h.WF) : (stepCloses h cmd).Nodup := by
  cases cmd with
  | register c => exact List.nodup_nil
  | recv c => exact List.nodup_nil
  | unregister c =>
    simp only [stepCloses]
    cases hc : h.clients c.UserID with
    | none => exact List.nodup_nil
    | some clients =>
      simp only
      by_cases hm : c ∈ clients
      · simp only [hm, if_true]
        exact List.nodup_singleton c
      · simp only [hm, if_false]
        exact List.nodup_nil
  | broadcast m =>
    simp only [stepCloses]
    cases hc : h.clients m.UserID with
    | none => exact List.nodup_nil
    | some clients =>
      exact (broadcastCloses_sublist m.Payload clients h.send).nodup (hwf _ clients hc)

/-- A connection whose channel a step closes is in no set afterwards. -/
theorem stepCloses_removed (h : Hub) (cmd : Cmd) (hk : h.Keyed) :
    ∀ e ∈ stepCloses h cmd, ∀ u, e ∉ (step h cmd).state.members u := by
  intro e he u hin
  have hu := mem_members_keyed (step_Keyed h cmd hk) hin
  subst hu
  cases cmd with
  | register c => cases he
  | recv c => cases he
  | unregister c =>
    have hec : e = c := by
      simp only [stepCloses] at he
      cases hc : h.clients c.UserID with
      | none =>
        rw [hc] at he
        cases he
      | some clients =>
        rw [hc] at he
        simp only at he
        by_cases hm : c ∈ clients
        · simpa [hm] using he
        · simp only [hm, if_false] at he
          cases he
    subst hec
    exact unregister_state_removes h e hin
  | broadcast m =>
    obtain ⟨U, p⟩ := m
    simp only [stepCloses] at he
    cases hc : h.clients U with
    | none =>
      rw [hc] at he
      cases he
    | some clients =>
      rw [hc] at he
      simp only at he
      have heU : e.UserID = U :=
        hk U clients hc e ((broadcastCloses_sublist p clients h.send).subset he)
      subst heU
      have hrem := broadcastCloses_removed p clients clients h.send e he
      simp only [step, broadcast, hc] at hin
      cases hl : broadcastLoop p clients clients h.send with
      | ok r =>
        rw [hl] at hin hrem
        simp only [Outcome.state, Hub.members, Function.update_same] at hin hrem
        exact hrem hin
      | panic r =>
        rw [hl] at hin hrem
        simp only [Outcome.state, Hub.members, Function.update_same] at hin hrem
        exact hrem hin

/-- Only a Register command adds a connection to a set. -/
theorem step_members_grow (h : Hub) (cmd : Cmd) (c : Client) (u : UUID)
    (hin : c ∈ (step h cmd).state.members u) : c ∈ h.members u ∨ cmd = .register c := by
  cases cmd with
  | register c1 =>
    rw [register_step] at hin
    by_cases hu : u = c1.UserID
    · subst hu
      simp only [Outcome.state] at hin
      rw [members_update] at hin
      rcases mem_insertClient.mp hin with hc | hc
      · exact Or.inr (by rw [hc])
      · exact Or.inl hc
    · left
      simpa [Outcome.state, Hub.members, Function.update_noteq hu] using hin
  | recv c1 =>
    left
    exact hin
  | unregister c1 =>
    left
    by_cases hm : c1 ∈ h.members c1.UserID
    · cases hc : h.clients c1.UserID with
      | none =>
        rw [members_of_none hc] at hm
        cases hm
      | some clients =>
        rw [members_of_some hc] at hm
        by_cases hu : u = c1.UserID
        · subst hu
          rw [members_of_some hc]
          cases hcl : (h.send c1).closed with
          | true =>
            rw [unregister_closed h c1 clients hc hm hcl] at hin
            simp only [Outcome.state, Hub.members, Function.update_same] at hin
            exact (mem_deleteClient.mp hin).1
          | false =>
            rw [unregister_open h c1 clients hc hm hcl] at hin
            by_cases hlen : (deleteClient clients c1).length = 0
            · simp [Outcome.state, Hub.members, hlen] at hin
            · simp only [Outcome.state, Hub.members, hlen, if_false, Function.update_same] at hin
              exact (mem_deleteClient.mp hin).1
        · cases hcl : (h.send c1).closed with
          | true =>
            rw [unregister_closed h c1 clients hc hm hcl] at hin
            simpa [Outcome.state, Hub.members, Function.update_noteq hu] using hin
          | false =>
            rw [unregister_open h c1 clients hc hm hcl] at hin
            simpa [Outcome.state, Hub.members, Function.update_noteq hu] using hin
    · rw [unregister_not_member h c1 hm] at hin
      exact hin
  | broadcast m =>
    left
    obtain ⟨U, p⟩ := m
    by_cases hu : u = U
    · subst hu
      cases hc : h.clients u with
      | none =>
        simp only [step, broadcast, hc] at hin
        exact hin
      | some clients =>
        rw [members_of_some hc]
        have hsub := (broadcastLoop_frame p clients clients h.send).2
        simp only [step, broadcast, hc] at hin
        cases hl : broadcastLoop p clients clients h.send with
        | ok r =>
          rw [hl] at hin hsub
          simp only [Outcome.state, Hub.members, Function.update_same] at hin hsub
          exact hsub.subset hin
        | panic r =>
          rw [hl] at hin hsub
          simp only [Outcome.state, Hub.members, Function.update_same] at hin hsub
          exact hsub.subset hin
    · have hfr := (broadcast_frame h U p).1 u hu
      simp only [Hub.members] at hin ⊢
      rw [hfr] at hin
      exact hin

theorem recv_closed (ch : Chan) : ch.recv.closed = ch.closed := by
  unfold Chan.recv
  cases ch.buf <;> rfl

/-- A step changes the closed flag of no channel but those it closes. -/
theorem step_closed_frame (h : Hub) (cmd : Cmd) (x : Client) (hx : x ∉ stepCloses h cmd) :
    ((step h cmd).state.send x).closed = (h.send x).closed := by
  cases cmd with
  | register c1 => rfl
  | recv c1 =>
    simp only [step, Outcome.state]
    by_cases hxc : x = c1
    · subst hxc
      rw [Function.update_same, recv_closed]
    · rw [Function.update_noteq hxc]
  | unregister c1 =>
    by_cases hm : c1 ∈ h.members c1.UserID
    · cases hc : h.clients c1.UserID with
      | none =>
        rw [members_of_none hc] at hm
        cases hm
      | some clients =>
        rw [members_of_some hc] at hm
        have hxc : x ≠ c1 := by
          intro hxe
          apply hx
          simp [stepCloses, hc, hm, hxe]
        cases hcl : (h.send c1).closed with
        | true =>
          rw [unregister_closed h c1 clients hc hm hcl]
          rfl
        | false =>
          rw [unregister_open h c1 clients hc hm hcl]
          simp only [Outcome.state, Function.update_noteq hxc]
    · rw [unregister_not_member h c1 hm]
      rfl
  | broadcast m =>
    obtain ⟨U, p⟩ := m
    simp only [stepCloses] at hx
    cases hc : h.clients U with
    | none =>
      simp only [step, broadcast, hc]
      rfl
    | some clients =>
      rw [hc] at hx
      simp only at hx
      have hfl := broadcastCloses_flag p x clients clients h.send hx
      simp only [step, broadcast, hc]
      cases hl : broadcastLoop p clients clients h.send with
      | ok r =>
        rw [hl] at hfl
        exact hfl
      | panic r =>
        rw [hl] at hfl
        exact hfl

theorem runCloses_cons_ok {h h1 : Hub} {cmd : Cmd} (rest : List Cmd)
    (hs : step h cmd = .ok h1) :
    runCloses h (cmd :: rest) = stepCloses h cmd ++ runCloses h1 rest := by
  simp [runCloses, hs]

theorem runCloses_cons_panic {h h1 : Hub} {cmd : Cmd} (rest : List Cmd)
    (hs : step h cmd = .panic h1) :
    runCloses h (cmd :: rest) = stepCloses h cmd := by
  simp [runCloses, hs]

/-- With the connections in `K` closed earlier and in no set: if no connection
is registered again after it was closed, no channel is closed twice. -/
theorem runCloses_nodup :
    ∀ (cmds : List Cmd) (h : Hub) (K : List Client), h.WF → h.Keyed →
      (∀ C ∈ K, ∀ u, C ∉ h.members u) → K.Nodup →
      (∀ pre C post, cmds = pre ++ Cmd.register C :: post → C ∉ K ++ runCloses h pre) →
      (K ++ runCloses h cmds).Nodup := by
  intro cmds
  induction cmds with
  | nil =>
    intro h K _ _ _ hK _
    simpa [runCloses] using hK
  | cons cmd rest ih =>
    intro h K hwf hk hgone hK hreuse
    have hKE : (K ++ stepCloses h cmd).Nodup := by
      rw [List.nodup_append]
      refine ⟨hK, stepCloses_nodup h cmd hwf, ?_⟩
      intro e heK heE
      obtain ⟨u, hu⟩ := stepCloses_mem h cmd e heE
      exact hgone e heK u hu
    cases hs : step h cmd with
    | panic h1 =>
      rw [runCloses_cons_panic rest hs]
      exact hKE
    | ok h1 =>
      rw [runCloses_cons_ok rest hs, ← List.append_assoc]
      have hwf1 : h1.WF := by
        have := step_WF h cmd hwf
        rw [hs] at this
        exact this
      have hk1 : h1.Keyed := by
        have := step_Keyed h cmd hk
        rw [hs] at this
        exact this
      apply ih h1 (K ++ stepCloses h cmd) hwf1 hk1 _ hKE
      · intro pre C post hsplit
        have := hreuse (cmd :: pre) C post (by rw [hsplit]; rfl)
        rw [runCloses_cons_ok pre hs, ← List.append_assoc] at this
        exact this
      · intro C hC u hin
        rcases List.mem_append.mp hC with hCK | hCE
        · have hin1 : C ∈ (step h cmd).state.members u := by
            rw [hs]
            exact hin
          rcases step_members_grow h cmd C u hin1 with hold | hreg
          · exact hgone C hCK u hold
          · have := hreuse [] C rest (by rw [hreg]; rfl)
            simp only [runCloses, List.append_nil] at this
            exact this hCK
        · have := stepCloses_removed h cmd hk C hCE u
          rw [hs] at this
          exact this hin

/-- C18: for every sequence of commands from the empty registry (receives of
the writer tasks may be interleaved) in which no connection is registered again
after the loop unregistered or evicted it, the loop runs `close` on the channel
of each connection at most once. -/
theorem queue_closed_at_most_once (send : Client → Chan) (cmds : List Cmd)
    (hnoreuse : NoReuse (NewHub send) cmds) :
    ∀ C, (runCloses (NewHub send) cmds).count C ≤ 1 := by
  have hnd : ([] ++ runCloses (NewHub send) cmds).Nodup :=
    runCloses_nodup cmds (NewHub send) [] (NewHub_WF send) (NewHub_Keyed send)
      (fun C hC => by cases hC) List.nodup_nil
      (fun pre C post hsplit => by
        simpa using hnoreuse pre C post hsplit)
  rw [List.nil_append] at hnd
  exact fun C => List.nodup_iff_count_le_one.mp hnd C

/-- Witness of `queue_closed_at_most_once`: in `shutdownCmds` both connections
are evicted and unregistered afterwards; the channel of each was closed once. -/
theorem queue_closed_at_most_once_witness :
    runCloses (NewHub fun _ => Chan.make 1) shutdownCmds = [⟨0, 7⟩, ⟨1, 7⟩] ∧
      (runCloses (NewHub fun _ => Chan.make 1) shutdownCmds).count ⟨0, 7⟩ ≤ 1 :=
  ⟨by decide,
   queue_closed_at_most_once (fun _ => Chan.make 1) shutdownCmds
    (by
      intro pre C post hsplit
      match pre with
      | [] => simp [runCloses]
      | [x] =>
        simp only [shutdownCmds, List.singleton_append, List.cons.injEq] at hsplit
        obtain ⟨hx, _⟩ := hsplit
        subst hx
        simp [runCloses, stepCloses, step, register]
      | x :: y :: pre2 =>
        have hmem : Cmd.register C ∈ shutdownCmds.drop 2 := by
          rw [hsplit]
          simp
        simp [shutdownCmds] at hmem)
    ⟨0, 7⟩⟩

/-! ## Registered connections have open channels -/

/-- When every member has an open channel, no step panics. -/
theorem step_ok_of_members_open (h : Hub) (cmd : Cmd) (hwf : h.WF)
    (hopen : ∀ u c, c ∈ h.members u → (h.send c).closed = false) :
    ∃ h1, step h cmd = .ok h1 := by
  cases cmd with
  | register c => exact ⟨_, register_step h c⟩
  | recv c => exact ⟨_, rfl⟩
  | unregister c =>
    by_cases hm : c ∈ h.members c.UserID
    · cases hc : h.clients c.UserID with
      | none =>
        rw [members_of_none hc] at hm
        cases hm
      | some clients =>
        have hop := hopen c.UserID c hm
        rw [members_of_some hc] at hm
        exact ⟨_, unregister_open h c clients hc hm hop⟩
    · exact ⟨_, unregister_not_member h c hm⟩
  | broadcast m =>
    obtain ⟨U, p⟩ := m
    cases hc : h.clients U with
    | none => exact ⟨h, by simp [step, broadcast, hc]⟩
    | some clients =>
      refine ⟨_, broadcast_open h U p clients hc (hwf U clients hc) ?_⟩
      intro c hcm
      exact hopen U c (by rw [members_of_some hc]; exact hcm)

/-- With the connections satisfying `R` registered earlier and those in `K`
closed earlier: if the members are registered and not closed, the registered
and not closed connections have open channels, no connection is registered
again after it was closed, and a connection has an open channel when it is
registered for the first time, then the run completes and every member of the
final state has an open channel. -/
theorem members_open_run :
    ∀ (cmds : List Cmd) (h : Hub) (K : List Client) (R : Client → Prop), h.WF → h.Keyed →
      (∀ u c, c ∈ h.members u → R c ∧ c ∉ K) →
      (∀ c, R c → c ∉ K → (h.send c).closed = false) →
      (∀ pre C post, cmds = pre ++ Cmd.register C :: post → C ∉ K ++ runCloses h pre) →
      (∀ pre C post, cmds = pre ++ Cmd.register C :: post → ¬ R C → Cmd.register C ∉ pre →
        ((run h pre).state.send C).closed = false) →
      (run h cmds).isOk = true ∧
        ∀ u, ∀ c ∈ (run h cmds).state.members u, ((run h cmds).state.send c).closed = false := by
  intro cmds
  induction cmds with
  | nil =>
    intro h K R _ _ hmem hRopen _ _
    refine ⟨rfl, ?_⟩
    intro u c hc
    exact hRopen c (hmem u c hc).1 (hmem u c hc).2
  | cons cmd rest ih =>
    intro h K R hwf hk hmem hRopen hreuse hfirst
    obtain ⟨h1, hs⟩ := step_ok_of_members_open h cmd hwf
      (fun u c hc => hRopen c (hmem u c hc).1 (hmem u c hc).2)
    have hwf1 : h1.WF := by
      have := step_WF h cmd hwf
      rw [hs] at this
      exact this
    have hk1 : h1.Keyed := by
      have := step_Keyed h cmd hk
      rw [hs] at this
      exact this
    have hregK : ∀ c, cmd = .register c → c ∉ K := by
      intro c hreg hcK
      have := hreuse [] c rest (by rw [hreg]; rfl)
      simp only [runCloses, List.append_nil] at this
      exact this hcK
    rw [run_cons_ok rest hs]
    apply ih h1 (K ++ stepCloses h cmd) (fun c => R c ∨ cmd = .register c) hwf1 hk1
    · intro u c hin
      have hin1 : c ∈ (step h cmd).state.members u := by
        rw [hs]
        exact hin
      have hnotE : c ∉ stepCloses h cmd := by
        intro hE
        have := stepCloses_removed h cmd hk c hE u
        exact this hin1
      rcases step_members_grow h cmd c u hin1 with hold | hreg
      · refine ⟨Or.inl (hmem u c hold).1, ?_⟩
        intro hKE
        rcases List.mem_append.mp hKE with hcK | hcE
        · exact (hmem u c hold).2 hcK
        · exact hnotE hcE
      · refine ⟨Or.inr hreg, ?_⟩
        intro hKE
        rcases List.mem_append.mp hKE with hcK | hcE
        · exact hregK c hreg hcK
        · exact hnotE hcE
    · intro c hR hKE
      have hcK : c ∉ K := fun hin => hKE (List.mem_append_left _ hin)
      have hcE : c ∉ stepCloses h cmd := fun hin => hKE (List.mem_append_right _ hin)
      have hfr := step_closed_frame h cmd c hcE
      rw [hs] at hfr
      simp only [Outcome.state] at hfr
      rw [hfr]
      by_cases hRc : R c
      · exact hRopen c hRc hcK
      · rcases hR with hRc1 | hreg
        · exact absurd hRc1 hRc
        · have := hfirst [] c rest (by rw [hreg]; rfl) hRc (by simp)
          simpa [run, Outcome.state] using this
    · intro pre C post hsplit
      have := hreuse (cmd :: pre) C post (by rw [hsplit]; rfl)
      rw [runCloses_cons_ok pre hs, ← List.append_assoc] at this
      exact this
    · intro pre C post hsplit hnR hnpre
      have hnR1 : ¬ R C := fun hRC => hnR (Or.inl hRC)
      have hne : cmd ≠ .register C := fun hreg => hnR (Or.inr hreg)
      have := hfirst (cmd :: pre) C post (by rw [hsplit]; rfl) hnR1
        (by
          intro hin
          rcases List.mem_cons.mp hin with hhead | htail
          · exact hne hhead.symm
          · exact hnpre htail)
      rw [run_cons_ok pre hs] at this
      exact this

/-- From the empty registry: the run completes and every member has an open
channel. -/
theorem members_open_from_new (send : Client → Chan) (cmds : List Cmd)
    (hfirst : FirstOpen (NewHub send) cmds) (hnoreuse : NoReuse (NewHub send) cmds) :
    (run (NewHub send) cmds).isOk = true ∧
      ∀ u, ∀ c ∈ (run (NewHub send) cmds).state.members u,
        ((run (NewHub send) cmds).state.send c).closed = false :=
  members_open_run cmds (NewHub send) [] (fun _ => False) (NewHub_WF send) (NewHub_Keyed send)
    (fun u c hc => by simp [Hub.members, NewHub] at hc)
    (fun c hR _ => by cases hR)
    (fun pre C post hsplit => by simpa using hnoreuse pre C post hsplit)
    (fun pre C post hsplit _ hnpre => hfirst pre C post hsplit hnpre)

theorem trySend_ne_panic_of_open (ch : Chan) (v : Bytes) (ho : ch.closed = false) :
    ch.trySend v ≠ .panic := by
  cases hf : ch.full with
  | true =>
    rw [trySend_open_full ch v ho hf]
    exact fun hcon => by cases hcon
  | false =>
    rw [trySend_open_free ch v ho hf]
    exact fun hcon => by cases hcon

/-- C19: for every sequence of commands from the empty registry (receives of
the writer tasks may be interleaved) in which every connection has an open
channel when it is first registered and no connection is registered again
after the loop unregistered or evicted it: the loop processes the whole
sequence without a panic, every connection that is a member of any user's set
in the final state has an open channel, and at every broadcast command of the
sequence every connection the loop sends to has an open channel, so that no
send is attempted on a closed channel. -/
theorem registered_queues_open (send : Client → Chan) (cmds : List Cmd)
    (hfirst : FirstOpen (NewHub send) cmds) (hnoreuse : NoReuse (NewHub send) cmds) :
    (run (NewHub send) cmds).isOk = true ∧
      (∀ u, ∀ c ∈ (run (NewHub send) cmds).state.members u,
        ((run (NewHub send) cmds).state.send c).closed = false) ∧
      (∀ pre m post, cmds = pre ++ Cmd.broadcast m :: post →
        ∀ c ∈ (run (NewHub send) pre).state.members m.UserID,
          ((run (NewHub send) pre).state.send c).closed = false ∧
          ((run (NewHub send) pre).state.send c).trySend m.Payload ≠ .panic) := by
  refine ⟨(members_open_from_new send cmds hfirst hnoreuse).1,
    (members_open_from_new send cmds hfirst hnoreuse).2, ?_⟩
  intro pre m post hsplit c hc
  have hfirst1 : FirstOpen (NewHub send) pre := by
    intro pre2 C post2 hsp hnpre
    exact hfirst pre2 C (post2 ++ Cmd.broadcast m :: post)
      (by rw [hsplit, hsp]; simp) hnpre
  have hnoreuse1 : NoReuse (NewHub send) pre := by
    intro pre2 C post2 hsp
    exact hnoreuse pre2 C (post2 ++ Cmd.broadcast m :: post) (by rw [hsplit, hsp]; simp)
  have hop := (members_open_from_new send pre hfirst1 hnoreuse1).2 m.UserID c hc
  exact ⟨hop, trySend_ne_panic_of_open _ _ hop⟩

/-- Witness of `registered_queues_open`: the commands `shutdownCmds` on fresh
channels of capacity 1. -/
theorem registered_queues_open_witness :
    (run (NewHub fun _ => Chan.make 1) shutdownCmds).isOk = true ∧
      (∀ u, ∀ c ∈ (run (NewHub fun _ => Chan.make 1) shutdownCmds).state.members u,
        ((run (NewHub fun _ => Chan.make 1) shutdownCmds).state.send c).closed = false) ∧
      (∀ pre m post, shutdownCmds = pre ++ Cmd.broadcast m :: post →
        ∀ c ∈ (run (NewHub fun _ => Chan.make 1) pre).state.members m.UserID,
          ((run (NewHub fun _ => Chan.make 1) pre).state.send c).closed = false ∧
          ((run (NewHub fun _ => Chan.make 1) pre).state.send c).trySend m.Payload ≠ .panic) :=
  registered_queues_open (fun _ => Chan.make 1) shutdownCmds
    (by
      intro pre C post hsplit _
      match pre with
      | [] => rfl
      | [x] =>
        simp only [shutdownCmds, List.singleton_append, List.cons.injEq] at hsplit
        obtain ⟨hx, _⟩ := hsplit
        subst hx
        rfl
      | x :: y :: pre2 =>
        have hmem : Cmd.register C ∈ shutdownCmds.drop 2 := by
          rw [hsplit]
          simp
        simp [shutdownCmds] at hmem)
    (by
      intro pre C post hsplit
      match pre with
      | [] => simp [runCloses]
      | [x] =>
        simp only [shutdownCmds, List.singleton_append, List.cons.injEq] at hsplit
        obtain ⟨hx, _⟩ := hsplit
        subst hx
        simp [runCloses, stepCloses, step, register]
      | x :: y :: pre2 =>
        have hmem : Cmd.register C ∈ shutdownCmds.drop 2 := by
          rw [hsplit]
          simp
        simp [shutdownCmds] at hmem)

/-! ## The order of the visit -/

theorem survivors_perm {o1 o2 : List Client} (hp : o1.Perm o2) (clients : List Client)
    (send : Client → Chan) : survivors o1 clients send = survivors o2 clients send := by
  unfold survivors
  apply List.filter_congr
  intro x _
  simp only [hp.mem_iff]

theorem delivered_perm {o1 o2 : List Client} (hp : o1.Perm o2) (payload : Bytes)
    (send : Client → Chan) : delivered payload o1 send = delivered payload o2 send := by
  funext x
  simp only [delivered, hp.mem_iff]

/-- The broadcast case visiting open channels in any order without repetition. -/
theorem broadcastVisiting_open (h : Hub) (U : UUID) (p : Bytes) (clients order : List Client)
    (hc : h.clients U = some clients) (hnd : order.Nodup)
    (hopen : ∀ c ∈ order, (h.send c).closed = false) :
    broadcastVisiting h ⟨U, p⟩ order
      = .ok { clients := Function.update h.clients U (some (survivors order clients h.send)),
              send := delivered p order h.send } := by
  simp only [broadcastVisiting, hc]
  rw [broadcastLoop_open p order clients h.send hnd hopen]

/-- The broadcast case panics in any order that reaches a closed channel. -/
theorem broadcastVisiting_closed (h : Hub) (U : UUID) (p : Bytes) (clients order : List Client)
    (hc : h.clients U = some clients) (hnd : order.Nodup)
    (hex : ∃ c ∈ order, (h.send c).closed = true) :
    (broadcastVisiting h ⟨U, p⟩ order).isOk = false := by
  have hbad := broadcastLoop_closed p order clients h.send hnd hex
  simp only [broadcastVisiting, hc]
  cases hl : broadcastLoop p order clients h.send with
  | ok r =>
    rw [hl] at hbad
    cases hbad
  | panic r => rfl

theorem broadcast_eq_visiting (h : Hub) (m : Message) :
    step h (.broadcast m) = broadcastVisiting h m (h.members m.UserID) := by
  simp only [step, broadcast, broadcastVisiting, Hub.members]
  cases h.clients m.UserID <;> rfl

/-- C21 (as amended): for every state whose inner maps have each key once, user
`U` and payload `p`, and any two orders in which the connections of the set of
`U` are visited: whether the broadcast completes or panics is the same for both
orders; and when every connection of `U` has an open channel, the broadcast
completes in both orders with the same state, the one the loop of `Hub.Run`
reaches. -/
theorem deliver_order_independent (h : Hub) (U : UUID) (p : Bytes) (o1 o2 : List Client)
    (hwf : h.WF) (h1 : o1.Perm (h.members U)) (h2 : o2.Perm (h.members U)) :
    (broadcastVisiting h ⟨U, p⟩ o1).isOk = (broadcastVisiting h ⟨U, p⟩ o2).isOk ∧
    ((∀ c ∈ h.members U, (h.send c).closed = false) →
      (broadcastVisiting h ⟨U, p⟩ o1).isOk = true ∧
      broadcastVisiting h ⟨U, p⟩ o1 = broadcastVisiting h ⟨U, p⟩ o2 ∧
      broadcastVisiting h ⟨U, p⟩ o1 = step h (.broadcast ⟨U, p⟩)) := by
  cases hc : h.clients U with
  | none =>
    have hv : ∀ o, broadcastVisiting h ⟨U, p⟩ o = .ok h := by
      intro o
      simp [broadcastVisiting, hc]
    refine ⟨by rw [hv o1, hv o2], fun _ => ⟨by rw [hv o1]; rfl, by rw [hv o1, hv o2], ?_⟩⟩
    rw [hv o1]
    simp [step, broadcast, hc]
  | some clients =>
    rw [members_of_some hc] at h1 h2
    rw [members_of_some hc]
    have hnd : clients.Nodup := hwf U clients hc
    have hnd1 : o1.Nodup := h1.nodup_iff.mpr hnd
    have hnd2 : o2.Nodup := h2.nodup_iff.mpr hnd
    have hopenall : (∀ c ∈ clients, (h.send c).closed = false) →
        (broadcastVisiting h ⟨U, p⟩ o1).isOk = true ∧
        broadcastVisiting h ⟨U, p⟩ o1 = broadcastVisiting h ⟨U, p⟩ o2 ∧
        broadcastVisiting h ⟨U, p⟩ o1 = step h (.broadcast ⟨U, p⟩) := by
      intro hopen
      have e1 := broadcastVisiting_open h U p clients o1 hc hnd1
        (fun c hcm => hopen c (h1.mem_iff.mp hcm))
      have e2 := broadcastVisiting_open h U p clients o2 hc hnd2
        (fun c hcm => hopen c (h2.mem_iff.mp hcm))
      have e3 := broadcast_open h U p clients hc hnd hopen
      rw [survivors_perm h1, delivered_perm h1] at e1
      rw [survivors_perm h2, delivered_perm h2] at e2
      refine ⟨by rw [e1]; rfl, by rw [e1, e2], ?_⟩
      rw [e1]
      exact e3.symm
    refine ⟨?_, hopenall⟩
    by_cases hall : ∀ c ∈ clients, (h.send c).closed = false
    · have hboth := hopenall hall
      rw [← hboth.2.1]
    · have hex : ∃ c ∈ clients, (h.send c).closed = true := by
        by_contra hno
        apply hall
        intro c hcm
        cases hcl : (h.send c).closed with
        | false => rfl
        | true => exact absurd ⟨c, hcm, hcl⟩ hno
      obtain ⟨c, hcm, hcl⟩ := hex
      rw [broadcastVisiting_closed h U p clients o1 hc hnd1 ⟨c, h1.mem_iff.mpr hcm, hcl⟩,
        broadcastVisiting_closed h U p clients o2 hc hnd2 ⟨c, h2.mem_iff.mpr hcm, hcl⟩]

/-- Witness of `deliver_order_independent`: the two orders of the two idle
connections of user 3 in `idleHub`. -/
theorem deliver_order_independent_witness :
    (broadcastVisiting idleHub ⟨3, [9]⟩ [⟨0, 3⟩, ⟨1, 3⟩]).isOk
        = (broadcastVisiting idleHub ⟨3, [9]⟩ [⟨1, 3⟩, ⟨0, 3⟩]).isOk ∧
      (broadcastVisiting idleHub ⟨3, [9]⟩ [⟨0, 3⟩, ⟨1, 3⟩]).isOk = true ∧
      broadcastVisiting idleHub ⟨3, [9]⟩ [⟨0, 3⟩, ⟨1, 3⟩]
        = broadcastVisiting idleHub ⟨3, [9]⟩ [⟨1, 3⟩, ⟨0, 3⟩] ∧
      broadcastVisiting idleHub ⟨3, [9]⟩ [⟨0, 3⟩, ⟨1, 3⟩] = step idleHub (.broadcast ⟨3, [9]⟩) :=
  ⟨(deliver_order_independent idleHub 3 [9] [⟨0, 3⟩, ⟨1, 3⟩] [⟨1, 3⟩, ⟨0, 3⟩] (run_WF _ _)
      (List.Perm.refl _) (List.Perm.swap _ _ _)).1,
   (deliver_order_independent idleHub 3 [9] [⟨0, 3⟩, ⟨1, 3⟩] [⟨1, 3⟩, ⟨0, 3⟩] (run_WF _ _)
      (List.Perm.refl _) (List.Perm.swap _ _ _)).2
    (by
      intro c hc
      have h2 : idleHub.members 3 = [⟨0, 3⟩, ⟨1, 3⟩] := by decide
      rw [h2] at hc
      rcases List.mem_cons.mp hc with h0 | h1
      · rw [h0]
        decide
      · rw [List.mem_singleton.mp h1]
        decide)⟩

/-- C21, counterexample: in `staleHub` the set of user 3 holds `⟨0, 3⟩` with an
open channel and `⟨1, 3⟩` with a closed one.  Visiting `⟨0, 3⟩` first enqueues
the payload on its queue before the panic; visiting `⟨1, 3⟩` first panics at
once and the queue of `⟨0, 3⟩` stays empty. -/
theorem deliver_order_independent_counterexample :
    staleHub.members 3 = [⟨0, 3⟩, ⟨1, 3⟩] ∧
      (broadcastVisiting staleHub ⟨3, [9]⟩ [⟨0, 3⟩, ⟨1, 3⟩]).isOk = false ∧
      (broadcastVisiting staleHub ⟨3, [9]⟩ [⟨1, 3⟩, ⟨0, 3⟩]).isOk = false ∧
      ((broadcastVisiting staleHub ⟨3, [9]⟩ [⟨0, 3⟩, ⟨1, 3⟩]).state.send ⟨0, 3⟩).buf = [[9]] ∧
      ((broadcastVisiting staleHub ⟨3, [9]⟩ [⟨1, 3⟩, ⟨0, 3⟩]).state.send ⟨0, 3⟩).buf = [] := by
  decide

/-! ## The story handler -/

theorem canView_iff (story : Story) (userID : UUID) (follows : UUID → UUID → Except String Bool) :
    canView story userID follows = true ↔
      (story.AuthorID = userID ∨ story.Visibility = "public" ∨
        (story.Visibility = "friends" ∧ follows userID story.AuthorID = .ok true)) := by
  unfold canView
  by_cases ha : story.AuthorID = userID
  · simp [ha]
  · by_cases hp : story.Visibility = "public"
    · simp [ha, hp]
    · by_cases hf : story.Visibility = "friends"
      · cases hl : follows userID story.AuthorID with
        | error e => simp [ha, hf]
        | ok b => cases b <;> simp [ha, hf]
      · simp [ha, hp, hf]

/-- C22: for an authenticated requester and a story the query found (the query
selects stories that are not deleted), `GetStory` answers 200 with the story iff
the requester is the author, or the visibility is `"public"`, or the visibility
is `"friends"` and the follow lookup succeeds and reports that the requester
follows the author; in every other case it answers 403 `access denied`. -/
theorem getStory_access (userID storyID : UUID) (query : UUID → StoryRow)
    (follows : UUID → UUID → Except String Bool) (story : Story)
    (hq : query storyID = .found story) :
    (GetStory (some userID) (.ok storyID) query follows = ⟨StatusOK, .story story⟩ ↔
      (story.AuthorID = userID ∨ story.Visibility = "public" ∨
        (story.Visibility = "friends" ∧ follows userID story.AuthorID = .ok true))) ∧
    (¬ (story.AuthorID = userID ∨ story.Visibility = "public" ∨
        (story.Visibility = "friends" ∧ follows userID story.AuthorID = .ok true)) →
      GetStory (some userID) (.ok storyID) query follows
        = ⟨StatusForbidden, .error "access denied"⟩) := by
  rw [← canView_iff]
  cases hcv : canView story userID follows with
  | true => simp [GetStory, hq, hcv]
  | false => simp [GetStory, hq, hcv, StatusOK, StatusForbidden]

/-- Witness of `getStory_access`: a story for followers, requested by user 2,
who follows the author, and by user 3, whose follow lookup fails. -/
theorem getStory_access_witness :
    GetStory (some 2) (.ok 10) (fun _ => .found friendsStory)
        (fun u _ => if u = 2 then .ok true else .error "db down")
        = ⟨StatusOK, .story friendsStory⟩ ∧
      GetStory (some 3) (.ok 10) (fun _ => .found friendsStory)
        (fun u _ => if u = 2 then .ok true else .error "db down")
        = ⟨StatusForbidden, .error "access denied"⟩ :=
  ⟨(getStory_access 2 10 (fun _ => .found friendsStory)
      (fun u _ => if u = 2 then .ok true else .error "db down") friendsStory rfl).1.mpr
      (Or.inr (Or.inr ⟨rfl, rfl⟩)),
   (getStory_access 3 10 (fun _ => .found friendsStory)
      (fun u _ => if u = 2 then .ok true else .error "db down") friendsStory rfl).2
      (by simp [friendsStory])⟩

/-! ## The rate limiter -/

/-- C23: `CheckRateLimit` never returns an error; with a nil cache or a nil
client it allows the request and sends nothing; when the increment fails it
allows the request; otherwise it allows the request iff the counter after the
increment is at most `limit`, and it sets the expiry of the key to the window
iff that counter is 1. -/
theorem checkRateLimit_decision (c : Option Cache) (userID : UUID) (action : String)
    (limit : Int) (window : Nat) :
    (CheckRateLimit c userID action limit window).err = none ∧
    ((c = none ∨ ∃ c1, c = some c1 ∧ c1.client = none) →
      (CheckRateLimit c userID action limit window).allowed = true ∧
      (CheckRateLimit c userID action limit window).sent = []) ∧
    (∀ c1 client, c = some c1 → c1.client = some client →
      ((∃ e, client.Incr ("ratelimit:" ++ action ++ ":" ++ uuidString userID) = .error e) →
        (CheckRateLimit c userID action limit window).allowed = true) ∧
      (∀ count, client.Incr ("ratelimit:" ++ action ++ ":" ++ uuidString userID) = .ok count →
        ((CheckRateLimit c userID action limit window).allowed = true ↔ count ≤ limit) ∧
        (RedisCmd.expire ("ratelimit:" ++ action ++ ":" ++ uuidString userID) window
            ∈ (CheckRateLimit c userID action limit window).sent ↔ count = 1) ∧
        (∀ key w, RedisCmd.expire key w ∈ (CheckRateLimit c userID action limit window).sent →
          key = "ratelimit:" ++ action ++ ":" ++ uuidString userID ∧ w = window))) := by
  refine ⟨?_, ?_, ?_⟩
  · cases c with
    | none => rfl
    | some c1 =>
      cases hcl : c1.client with
      | none => simp [CheckRateLimit, hcl]
      | some client =>
        cases hi : client.Incr ("ratelimit:" ++ action ++ ":" ++ uuidString userID) with
        | error e => simp [CheckRateLimit, hcl, hi]
        | ok count =>
          by_cases h1 : count = 1
          · simp [CheckRateLimit, hcl, hi, h1]
          · simp [CheckRateLimit, hcl, hi, h1]
  · rintro (hnone | ⟨c1, hc, hcl⟩)
    · subst hnone
      exact ⟨rfl, rfl⟩
    · subst hc
      simp [CheckRateLimit, hcl]
  · intro c1 client hc hcl
    subst hc
    refine ⟨?_, ?_⟩
    · rintro ⟨e, hi⟩
      simp [CheckRateLimit, hcl, hi]
    · intro count hi
      by_cases h1 : count = 1
      · simp [CheckRateLimit, hcl, hi, h1]
      · simp [CheckRateLimit, hcl, hi, h1]

/-- Witness of `checkRateLimit_decision`: the first request of user 5 for
`react` with limit 60 is allowed and sets the expiry; a nil cache allows. -/
theorem checkRateLimit_decision_witness :
    (CheckRateLimit none 5 "react" 60 60).allowed = true ∧
      (CheckRateLimit (some ⟨some ⟨fun _ => .ok 1⟩⟩) 5 "react" 60 60).allowed = true ∧
      RedisCmd.expire ("ratelimit:" ++ "react" ++ ":" ++ uuidString 5) 60
        ∈ (CheckRateLimit (some ⟨some ⟨fun _ => .ok 1⟩⟩) 5 "react" 60 60).sent :=
  ⟨((checkRateLimit_decision none 5 "react" 60 60).2.1 (Or.inl rfl)).1,
   (((checkRateLimit_decision (some ⟨some ⟨fun _ => .ok 1⟩⟩) 5 "react" 60 60).2.2
      ⟨some ⟨fun _ => .ok 1⟩⟩ ⟨fun _ => .ok 1⟩ rfl rfl).2 1 rfl).1.mpr (by decide),
   (((checkRateLimit_decision (some ⟨some ⟨fun _ => .ok 1⟩⟩) 5 "react" 60 60).2.2
      ⟨some ⟨fun _ => .ok 1⟩⟩ ⟨fun _ => .ok 1⟩ rfl rfl).2 1 rfl).2.1.mpr rfl⟩

/-! ## Presigned uploads -/

/-- C5 (as amended): in every state reached from the empty registry by a finite
sequence of Register and Unregister commands (receives of the writer tasks may
be interleaved), every connection in the set stored under a user `u` has
`UserID` equal to `u`; whenever the loop processed the whole sequence without a
panic, no user maps to an empty connection set; and the loop does process the
whole sequence without a panic whenever every connection has an open channel
when it is first registered and no connection is registered again after it was
unregistered. -/
theorem register_unregister_invariant (send : Client → Chan) (cmds : List Cmd)
    (hcmds : ∀ cmd ∈ cmds, cmd.isBroadcast = false) :
    (∀ u clients, (run (NewHub send) cmds).state.clients u = some clients →
      ∀ c ∈ clients, c.UserID = u) ∧
    ((run (NewHub send) cmds).isOk = true →
      ∀ u, (run (NewHub send) cmds).state.clients u ≠ some []) ∧
    (FirstOpen (NewHub send) cmds → NoReuse (NewHub send) cmds →
      (run (NewHub send) cmds).isOk = true) := by
  refine ⟨run_Keyed send cmds, ?_, fun hfirst hnoreuse =>
    (members_open_from_new send cmds hfirst hnoreuse).1⟩
  intro hok
  cases hrun : run (NewHub send) cmds with
  | panic g =>
    rw [hrun] at hok
    cases hok
  | ok g =>
    exact run_ok_invariant Hub.NoEmpty (fun cmd => cmd.isBroadcast = false) step_NoEmpty cmds
      (NewHub send) g hcmds (fun v hv => by cases hv) hrun

/-- Witness of `register_unregister_invariant`: after two registrations and one
unregistration for user 3, on fresh channels, the loop has not panicked and the
set of user 3 is the remaining connection. -/
theorem register_unregister_invariant_witness :
    (run (NewHub fun _ => Chan.make 2) leaveCmds).state.clients 3 = some [⟨1, 3⟩] ∧
      (∀ c ∈ ([⟨1, 3⟩] : List Client), c.UserID = 3) ∧
      (run (NewHub fun _ => Chan.make 2) leaveCmds).state.clients 3 ≠ some [] ∧
      (run (NewHub fun _ => Chan.make 2) leaveCmds).isOk = true :=
  ⟨by decide,
   (register_unregister_invariant (fun _ => Chan.make 2) leaveCmds (by decide)).1 3 [⟨1, 3⟩]
    (by decide),
   (register_unregister_invariant (fun _ => Chan.make 2) leaveCmds (by decide)).2.1
    (by decide) 3,
   (register_unregister_invariant (fun _ => Chan.make 2) leaveCmds (by decide)).2.2
    (by
      intro pre C post hsplit _
      match pre with
      | [] => rfl
      | [x] =>
        simp only [leaveCmds, List.singleton_append, List.cons.injEq] at hsplit
        obtain ⟨hx, _⟩ := hsplit
        subst hx
        rfl
      | x :: y :: pre2 =>
        have hmem : Cmd.register C ∈ leaveCmds.drop 2 := by
          rw [hsplit]
          simp
        simp [leaveCmds] at hmem)
    (by
      intro pre C post hsplit
      match pre with
      | [] => simp [runCloses]
      | [x] =>
        simp only [leaveCmds, List.singleton_append, List.cons.injEq] at hsplit
        obtain ⟨hx, _⟩ := hsplit
        subst hx
        simp [runCloses, stepCloses, step, register]
      | x :: y :: pre2 =>
        have hmem : Cmd.register C ∈ leaveCmds.drop 2 := by
          rw [hsplit]
          simp
        simp [leaveCmds] at hmem)⟩

/-- C5, counterexample: Register, Unregister, Register, Unregister of one client
on a fresh channel are Register and Unregister commands only.  The first
Unregister closes the channel; the second one deletes the client from the set
and then panics at `close`, before the pruning: the loop stops in a state where
user 7 maps to an empty connection set. -/
theorem register_unregister_invariant_counterexample :
    (∀ cmd ∈ reuseCmds, cmd.isBroadcast = false) ∧
      (run (NewHub fun _ => Chan.make 1) reuseCmds).isOk = false ∧
      (run (NewHub fun _ => Chan.make 1) reuseCmds).state.clients 7 = some [] := by
  decide

/-! ## Per-connection FIFO, from the empty registry -/

theorem run_append (h : Hub) (a b : List Cmd) :
    run h (a ++ b) = match run h a with
      | .ok g => run g b
      | .panic g => .panic g := by
  induction a generalizing h with
  | nil => rfl
  | cons cmd rest ih =>
    cases hs : step h cmd with
    | ok g =>
      rw [List.cons_append, run_cons_ok _ hs, run_cons_ok _ hs]
      exact ih g
    | panic g =>
      rw [List.cons_append, run_cons_panic _ hs, run_cons_panic _ hs]

/-- C7 (as amended): for every sequence of commands from the empty registry
(receives of the writer tasks may be interleaved) and every connection `C` with
a buffered queue (capacity at least 1) that is registered with an empty queue
and stays a member of its user's set ever after (it is neither unregistered nor
evicted): the first broadcast finds room in the queue of `C`; whenever the loop
processed the whole sequence without a panic, the items the writer took from
the queue of `C` since the registration, followed by the items still queued, are
exactly the payloads of the broadcast commands addressed to the user of `C` that
were processed after the registration, in the same order; and the loop does
process the whole sequence without a panic whenever every connection has an
open channel when it is first registered and no connection is registered again
after it was unregistered or evicted. -/
theorem fifo_per_connection (send : Client → Chan) (pre post : List Cmd) (C : Client)
    (h1 : Hub) (hreg : h1 = (run (NewHub send) (pre ++ [.register C])).state)
    (hcap : 0 < (h1.send C).cap) (hempty : (h1.send C).buf = [])
    (hstay : ∀ k, C ∈ (run h1 (post.take k)).state.members C.UserID) :
    (h1.send C).full = false ∧
    ((run (NewHub send) (pre ++ .register C :: post)).isOk = true →
      ∃ out,
        ((run (NewHub send) (pre ++ .register C :: post)).state.send C).recvd
          = (h1.send C).recvd ++ out ∧
        out ++ ((run (NewHub send) (pre ++ .register C :: post)).state.send C).buf
          = payloadsFor C.UserID post) ∧
    (FirstOpen (NewHub send) (pre ++ .register C :: post) →
      NoReuse (NewHub send) (pre ++ .register C :: post) →
      (run (NewHub send) (pre ++ .register C :: post)).isOk = true) := by
  refine ⟨?_, ?_, fun hfirst hnoreuse => (members_open_from_new send _ hfirst hnoreuse).1⟩
  · simp only [Chan.full, hempty, List.length_nil, decide_eq_false_iff_not]
    omega
  · intro hok
    have hwf : h1.WF := by
      rw [hreg]
      exact run_WF send _
    have hk : h1.Keyed := by
      rw [hreg]
      exact run_Keyed send _
    have hsplit : pre ++ Cmd.register C :: post = (pre ++ [.register C]) ++ post := by
      simp
    rw [hsplit, run_append] at hok ⊢
    cases hpre : run (NewHub send) (pre ++ [.register C]) with
    | panic g =>
      rw [hpre] at hok
      cases hok
    | ok g =>
      have hg : h1 = g := by
        rw [hreg, hpre]
        rfl
      subst hg
      rw [hpre] at hok
      simp only at hok ⊢
      cases hpost : run h1 post with
      | panic g2 =>
        rw [hpost] at hok
        cases hok
      | ok h =>
        obtain ⟨out, h1o, h2o⟩ := fifo_from C post h1 h hwf hk hstay hpost
        rw [hempty, List.nil_append] at h2o
        exact ⟨out, h1o, h2o⟩

/-- Witness of `fifo_per_connection`: the connection `⟨0, 3⟩` of `fifoHub` and
the commands `fifoPost`, where the payloads `[1]` and `[2]` reach its queue in
order; and a lone connection `⟨0, 3⟩` followed by `soloPost`, a sequence without
reuse, which the loop processes without a panic. -/
theorem fifo_per_connection_witness :
    (fifoHub.send ⟨0, 3⟩).full = false ∧
    (∃ out,
      ((run (NewHub fun _ => Chan.make 2)
          ([.register ⟨5, 8⟩] ++ .register ⟨0, 3⟩ :: fifoPost)).state.send ⟨0, 3⟩).recvd
        = (fifoHub.send ⟨0, 3⟩).recvd ++ out ∧
      out ++ ((run (NewHub fun _ => Chan.make 2)
          ([.register ⟨5, 8⟩] ++ .register ⟨0, 3⟩ :: fifoPost)).state.send ⟨0, 3⟩).buf
        = [[1], [2]]) ∧
    (run (NewHub fun _ => Chan.make 2) ([] ++ .register ⟨0, 3⟩ :: soloPost)).isOk = true :=
  ⟨(fifo_per_connection (fun _ => Chan.make 2) [.register ⟨5, 8⟩] fifoPost ⟨0, 3⟩ fifoHub
      rfl (by decide) (by decide)
      (by
        intro k
        match k with
        | 0 => decide
        | 1 => decide
        | 2 => decide
        | 3 => decide
        | 4 => decide
        | 5 => decide
        | n + 6 =>
          have ht : fifoPost.take (n + 6) = fifoPost :=
            List.take_of_length_le (by simp [fifoPost])
          rw [ht]
          decide)).1,
   (fifo_per_connection (fun _ => Chan.make 2) [.register ⟨5, 8⟩] fifoPost ⟨0, 3⟩ fifoHub
      rfl (by decide) (by decide)
      (by
        intro k
        match k with
        | 0 => decide
        | 1 => decide
        | 2 => decide
        | 3 => decide
        | 4 => decide
        | 5 => decide
        | n + 6 =>
          have ht : fifoPost.take (n + 6) = fifoPost :=
            List.take_of_length_le (by simp [fifoPost])
          rw [ht]
          decide)).2.1 (by decide),
   (fifo_per_connection (fun _ => Chan.make 2) [] soloPost ⟨0, 3⟩
      (run (NewHub fun _ => Chan.make 2) [.register ⟨0, 3⟩]).state
      rfl (by decide) (by decide)
      (by
        intro k
        match k with
        | 0 => decide
        | 1 => decide
        | 2 => decide
        | n + 3 =>
          have ht : soloPost.take (n + 3) = soloPost :=
            List.take_of_length_le (by simp [soloPost])
          rw [ht]
          decide)).2.2
      (by
        intro pre C post hsplit _
        match pre with
        | [] => rfl
        | x :: pre2 =>
          have hmem : Cmd.register C ∈ soloPost := by
            have hd : soloPost = pre2 ++ Cmd.register C :: post := by
              simpa using congrArg List.tail hsplit
            rw [hd]
            simp
          simp [soloPost] at hmem)
      (by
        intro pre C post hsplit
        match pre with
        | [] => simp [runCloses]
        | x :: pre2 =>
          have hmem : Cmd.register C ∈ soloPost := by
            have hd : soloPost = pre2 ++ Cmd.register C :: post := by
              simpa using congrArg List.tail hsplit
            rw [hd]
            simp
          simp [soloPost] at hmem)⟩

/-- C7, counterexample: `⟨1, 3⟩` is registered, unregistered and registered
again, then `⟨0, 3⟩` is registered with an empty queue of capacity 2, all
without a panic.  The broadcast of `[1]` to user 3 panics at `⟨1, 3⟩`, whose
channel is closed: `⟨0, 3⟩` is a member before and after the broadcast, it is
neither unregistered nor evicted, but nothing was enqueued on its queue, while
the payloads addressed to its user are `[[1]]`. -/
theorem fifo_per_connection_counterexample :
    (run (NewHub fun _ => Chan.make 2) (siblingPre ++ [.register ⟨0, 3⟩])).isOk = true ∧
      (siblingHub.send ⟨0, 3⟩).buf = [] ∧ 0 < (siblingHub.send ⟨0, 3⟩).cap ∧
      (⟨0, 3⟩ : Client) ∈ siblingHub.members 3 ∧
      (⟨0, 3⟩ : Client) ∈ (run siblingHub [.broadcast ⟨3, [1]⟩]).state.members 3 ∧
      (run siblingHub [.broadcast ⟨3, [1]⟩]).isOk = false ∧
      ((run siblingHub [.broadcast ⟨3, [1]⟩]).state.send ⟨0, 3⟩).log = [] ∧
      payloadsFor 3 [.broadcast ⟨3, [1]⟩] = [[1]] := by
  decide

end Websocket
